import Mathlib

/-!
# Verification of the `aplite_reactive` fine-grained reactive graph

A shallow embedding of `src/crates/aplite_reactive/src/graph.rs`
(`ReactiveGraph`: `create_signal`, `create_effect`, `track`, `untrack`,
`notify_subscribers`, `run_effect`, `get_subscribers`) together with the
parts of the reactive crate that graph.rs uses but whose source files are
not present in the repository snapshot (`StoredValue`, the `Storage`
arena, and the signal read/write handles); those parts are modelled from
the specification and marked as such in their doc comments.

Effect closures are arbitrary user code in the original; here they are
deep-embedded as a small command language (`Cmd`) whose interpreter calls
back into the graph operations exactly as the Rust closures call
`track`/`notify_subscribers` through the signal handles.  Signal values
are `Nat` (the Rust values are type-erased `Any`; nothing in the claims
depends on the value type).

The graph state carries, besides the fields of the Rust struct
(`storage`, `current`, `subscribers` registry), ghost instrumentation
used only to *state* the specification's properties: a log of effect
runs, a log of notifications, the set of signals tracked by each
effect's most recent run, the stack of effects currently running, and a
flag recording whether an effect was ever re-entered while still
running.  Ghost fields are only written at the points stated in their
doc comments and never influence the non-ghost fields.
-/

/-- Update an association list at a key, appending if absent. -/
def aset {α : Type} : List (Nat × α) → Nat → α → List (Nat × α)
  | [], n, v => [(n, v)]
  | (k, w) :: t, n, v => if k = n then (n, v) :: t else (k, w) :: aset t n v

/-- Look a key up in an association list. -/
def alookup {α : Type} : List (Nat × α) → Nat → Option α
  | [], _ => none
  | (k, v) :: t, n => if k = n then some v else alookup t n

/-- Remove a key from an association list. -/
def aremove {α : Type} (l : List (Nat × α)) (n : Nat) : List (Nat × α) :=
  l.filter (fun p => p.1 ≠ n)

/-- Modelled from the spec: `StoredValue` (file `stored_value.rs` is not in
the snapshot) holds the current (type-erased) value and the subscriber
set, "membership semantics — no duplicates ... SHOULD preserve insertion
order". -/
structure StoredValue where
  value : Nat
  subscribers : List Nat
  deriving DecidableEq, Repr

/-- Modelled from the spec: `StoredValue::add_subscriber` — add an effect
id to the subscriber set, idempotently, preserving insertion order. -/
def add_subscriber (s : StoredValue) (e : Nat) : StoredValue :=
  if e ∈ s.subscribers then s else { s with subscribers := s.subscribers ++ [e] }

/-- A reference to a signal inside an effect body: either a global id
(signals created at top level) or a de Bruijn index into the ids of the
signals created by enclosing `letSignal` scopes (signals created inside a
running effect, as in the `child_effect` test). -/
inductive Ref : Type where
  | sid (n : Nat)
  | var (k : Nat)
  deriving DecidableEq, Repr

/-- Expressions evaluated inside an effect closure.  `read` is a tracked
read through a read handle (`get`/`with` in the Rust tests). -/
inductive Exp : Type where
  | lit (n : Nat)
  | read (r : Ref)
  | add (a b : Exp)
  | mul (a b : Exp)
  deriving DecidableEq, Repr

/-- The body of an effect closure, deep-embedded.  The constructors cover
exactly what the Rust test closures do: sequencing, branching on a
tracked read, writing a signal through a write handle (`set`), writing
the external observable cell (the `Rc<RefCell<String>>` of the tests),
creating a signal, and creating a (child) effect. -/
inductive Cmd : Type where
  | skip
  | seq (a b : Cmd)
  | ite (c : Exp) (a b : Cmd)
  | write (r : Ref) (e : Exp)
  | setExt (e : Exp)
  | letSignal (init : Nat) (k : Cmd)
  | mkEffect (body : Cmd)
  deriving DecidableEq, Repr

/-- A registered subscriber entry: the closure body plus its captured
environment (the signal ids its enclosing `letSignal` scopes resolved to
at creation time).  The Rust `EffectInner` also stores the closure's
previous result; no claim mentions that value, so it is omitted. -/
abbrev Closure := Cmd × List Nat

/-- The state of `ReactiveGraph` (graph.rs lines 76-80): `storage` maps
`ReactiveId`s to stored values, `current` is the execution context,
`subscribers` maps `EffectId`s to subscriber entries.  The `Storage`
arena (crate `aplite_storage`, not in the snapshot) is modelled from the
spec as an association list plus a fresh-id counter: insert returns a
fresh id, ids are never reused.  Fields from `runLog` on are ghost
instrumentation. -/
structure ReactiveGraph where
  storage : List (Nat × StoredValue)
  nextSig : Nat
  subscribers : List (Nat × Closure)
  nextEff : Nat
  current : Option Nat
  ext : Nat
  /-- ghost: effect ids whose closure actually started running, in order. -/
  runLog : List Nat
  /-- ghost: effect ids in creation order. -/
  createdLog : List Nat
  /-- ghost: one entry per `notify_subscribers` on a live signal:
  the signal and the snapshot of its subscriber set at that moment. -/
  trigLog : List (Nat × List Nat)
  /-- ghost: for each effect, the signals tracked by its most recent
  completed run. -/
  lastReads : List (Nat × List Nat)
  /-- ghost: for each effect, the signals tracked so far by its
  in-progress run. -/
  acc : List (Nat × List Nat)
  /-- ghost: effects currently running (innermost first). -/
  stack : List Nat
  /-- ghost: set when `run_effect` starts an effect that is already
  running (synchronous re-entry). -/
  reentered : Bool
  deriving DecidableEq, Repr

/-- The empty graph (`ReactiveGraph::new`). -/
def ReactiveGraph.empty : ReactiveGraph :=
  ⟨[], 0, [], 0, none, 0, [], [], [], [], [], [], false⟩

/-- Failures: running out of fuel models the unbounded synchronous
recursion of cyclic writes (spec §7); `disposed` models the loud failure
of value access through a handle whose entry was removed. -/
inductive RErr : Type where
  | fuel
  | disposed
  deriving DecidableEq, Repr

/-- Outcome of a graph operation: the state reached (also on failure —
a failure unwinds, it does not roll state back) plus an optional
failure. -/
abbrev Out := ReactiveGraph × Option RErr

/-- Sequencing that propagates failures (spec §7: a failure aborts the
chain visibly; nothing downstream runs). -/
def andThen (o : Out) (k : ReactiveGraph → Out) : Out :=
  match o with
  | (g, some e) => (g, some e)
  | (g, none) => k g

/-- The subscriber list of a signal (empty when absent). -/
def subsOf (g : ReactiveGraph) (s : Nat) : List Nat :=
  match alookup g.storage s with
  | none => []
  | some v => v.subscribers

/-- Whether a signal id is live in the value store. -/
def liveSig (g : ReactiveGraph) (s : Nat) : Bool :=
  (alookup g.storage s).isSome

/-- The signals recorded as tracked by an effect's most recent run. -/
def lastReadsOf (g : ReactiveGraph) (e : Nat) : List Nat :=
  (alookup g.lastReads e).getD []

/-- The signals tracked so far by an effect's in-progress run. -/
def accOf (g : ReactiveGraph) (e : Nat) : List Nat :=
  (alookup g.acc e).getD []

/-- `ReactiveGraph::track` (graph.rs lines 117-124): if the signal is
live and an effect is currently running, add that effect to the signal's
subscriber set.  Ghost: the tracked signal is also recorded in the
running effect's in-progress read set. -/
def track (g : ReactiveGraph) (s : Nat) : ReactiveGraph :=
  match alookup g.storage s with
  | none => g
  | some v =>
    match g.current with
    | none => g
    | some e =>
      { g with
        storage := aset g.storage s (add_subscriber v e)
        acc := aset g.acc e (if s ∈ accOf g e then accOf g e else accOf g e ++ [s]) }

/-- `ReactiveGraph::untrack` (graph.rs lines 126-130): if the signal is
live, clear its subscriber set. -/
def untrack (g : ReactiveGraph) (s : Nat) : ReactiveGraph :=
  match alookup g.storage s with
  | none => g
  | some v => { g with storage := aset g.storage s { v with subscribers := [] } }

/-- `ReactiveGraph::get_subscribers` (graph.rs lines 145-150): a snapshot
of the signal's subscriber list, `none` when the signal is absent. -/
def get_subscribers (g : ReactiveGraph) (s : Nat) : Option (List Nat) :=
  (alookup g.storage s).map (fun v => v.subscribers)

/-- Result of evaluating an expression: successor state, optional
failure, value (0 on failure). -/
structure EOut where
  g : ReactiveGraph
  err : Option RErr
  val : Nat

/-- Resolve a signal reference against the closure environment (absent
de Bruijn index resolves to an id that is never allocated, `nextSig` of
an empty env situation cannot arise in the encoded scenarios). -/
def resolveRef (env : List Nat) : Ref → Nat
  | .sid n => n
  | .var k => (env.get? k).getD 0

/-- Modelled from the spec: a tracked read through a read handle
(`signal_read.rs` / `reactive_traits.rs` are not in the snapshot).
Spec §4.3/§4.6: the read invokes `track`, and value access for a
disposed signal "must fail (loud failure, not stale-value fallback)". -/
def readSignal (g : ReactiveGraph) (s : Nat) : EOut :=
  let g1 := track g s
  match alookup g1.storage s with
  | none => ⟨g1, some .disposed, 0⟩
  | some v => ⟨g1, none, v.value⟩

/-- Evaluate an expression; tracked reads mutate the graph. -/
def evalExp (env : List Nat) (g : ReactiveGraph) : Exp → EOut
  | .lit n => ⟨g, none, n⟩
  | .read r => readSignal g (resolveRef env r)
  | .add a b =>
    match evalExp env g a with
    | ⟨g1, some e, _⟩ => ⟨g1, some e, 0⟩
    | ⟨g1, none, v1⟩ =>
      match evalExp env g1 b with
      | ⟨g2, some e, _⟩ => ⟨g2, some e, 0⟩
      | ⟨g2, none, v2⟩ => ⟨g2, none, v1 + v2⟩
  | .mul a b =>
    match evalExp env g a with
    | ⟨g1, some e, _⟩ => ⟨g1, some e, 0⟩
    | ⟨g1, none, v1⟩ =>
      match evalExp env g1 b with
      | ⟨g2, some e, _⟩ => ⟨g2, some e, 0⟩
      | ⟨g2, none, v2⟩ => ⟨g2, none, v1 * v2⟩

/-- Modelled from the spec: replacing a stored value through a write
handle, step 1 of the write protocol (§4.4); the subscriber set is kept
(step 2, `notify_subscribers`, clears it).  Spec §4.6: "writes to a
disposed signal's write handle are likewise failures, not no-ops". -/
def setValue (g : ReactiveGraph) (s : Nat) (v : Nat) : Out :=
  match alookup g.storage s with
  | none => (g, some .disposed)
  | some old => ({ g with storage := aset g.storage s { old with value := v } }, none)

mutual

/-- Interpret an effect closure body.  Fuel is consumed at every step;
exhaustion models the unbounded synchronous recursion the engine does
not detect (spec §7). -/
def runCmd : Nat → List Nat → ReactiveGraph → Cmd → Out
  | 0, _, g, _ => (g, some .fuel)
  | f + 1, env, g, c =>
    match c with
    | .skip => (g, none)
    | .seq a b => andThen (runCmd f env g a) (fun g1 => runCmd f env g1 b)
    | .ite cnd a b =>
      match evalExp env g cnd with
      | ⟨g1, some e, _⟩ => (g1, some e)
      | ⟨g1, none, v⟩ => if v ≠ 0 then runCmd f env g1 a else runCmd f env g1 b
    | .write r e =>
      match evalExp env g e with
      | ⟨g1, some er, _⟩ => (g1, some er)
      | ⟨g1, none, v⟩ =>
        andThen (setValue g1 (resolveRef env r) v)
          (fun g2 => notify_subscribers f g2 (resolveRef env r))
    | .setExt e =>
      match evalExp env g e with
      | ⟨g1, some er, _⟩ => (g1, some er)
      | ⟨g1, none, v⟩ => ({ g1 with ext := v }, none)
    | .letSignal init k =>
      let s := g.nextSig
      let g1 := { g with
        storage := g.storage ++ [(s, ⟨init, []⟩)]
        nextSig := s + 1 }
      runCmd f (s :: env) g1 k
    | .mkEffect body => create_effect f g (body, env)

/-- `ReactiveGraph::notify_subscribers` (graph.rs lines 132-143): if the
signal is live, snapshot its subscriber list, clear the set via
`untrack`, and run each snapshotted effect in order.  Ghost: the
snapshot is logged in `trigLog`. -/
def notify_subscribers : Nat → ReactiveGraph → Nat → Out
  | 0, g, _ => (g, some .fuel)
  | f + 1, g, s =>
    match get_subscribers g s with
    | none => (g, none)
    | some subs =>
      let g1 := untrack g s
      let g2 := { g1 with trigLog := g1.trigLog ++ [(s, subs)] }
      run_list f g2 subs

/-- Run a list of effects strictly sequentially, each to completion
before the next starts (the `for_each` of `notify_subscribers`). -/
def run_list : Nat → ReactiveGraph → List Nat → Out
  | 0, g, _ => (g, some .fuel)
  | _ + 1, g, [] => (g, none)
  | f + 1, g, e :: es => andThen (run_effect f g e) (fun g1 => run_list f g1 es)

/-- `ReactiveGraph::run_effect` (graph.rs lines 152-165): save the
execution context and replace it with this effect; look the subscriber
entry up; if present run the closure; restore the saved context.  An
absent entry is skipped silently.  A failure inside the closure unwinds
without restoring (mirroring a Rust panic crossing `run_effect`).
Ghost: a started closure is appended to `runLog`, the effect is pushed
on `stack` for the duration of the run (recording `reentered` if it is
already there), its in-progress read set starts empty and is committed
to `lastReads` on completion. -/
def run_effect : Nat → ReactiveGraph → Nat → Out
  | 0, g, _ => (g, some .fuel)
  | f + 1, g, e =>
    let parent := g.current
    let g1 := { g with current := some e }
    match alookup g1.subscribers e with
    | none => ({ g1 with current := parent }, none)
    | some (body, env) =>
      let g2 := { g1 with
        runLog := g1.runLog ++ [e]
        stack := e :: g1.stack
        reentered := g1.reentered || g1.stack.contains e
        acc := aset g1.acc e [] }
      match runCmd f env g2 body with
      | (g3, some er) => (g3, some er)
      | (g3, none) =>
        ({ g3 with
           current := parent
           stack := g.stack
           lastReads := aset g3.lastReads e (accOf g3 e)
           acc := aset g3.acc e [] }, none)

/-- `ReactiveGraph::create_effect` (graph.rs lines 102-115): insert the
wrapped subscriber entry into the registry under a fresh id, then invoke
`run_effect` on it exactly once.  Ghost: the new id is appended to
`createdLog`. -/
def create_effect : Nat → ReactiveGraph → Closure → Out
  | 0, g, _ => (g, some .fuel)
  | f + 1, g, cl =>
    let e := g.nextEff
    let g1 := { g with
      subscribers := g.subscribers ++ [(e, cl)]
      nextEff := e + 1
      createdLog := g.createdLog ++ [e] }
    run_effect f g1 e

end

/-- `ReactiveGraph::create_signal` / `split_signal` (graph.rs lines
90-100): insert a fresh stored value; the two functions build the same
entry and differ only in the handle types returned, which are erased
here. -/
def create_signal (g : ReactiveGraph) (init : Nat) : ReactiveGraph :=
  { g with
    storage := g.storage ++ [(g.nextSig, ⟨init, []⟩)]
    nextSig := g.nextSig + 1 }

/-- Modelled from the spec: `dispose` (§4.6, the signal handles' source
is not in the snapshot) "removes the stored value and clears its
subscriber set in one step". -/
def dispose (g : ReactiveGraph) (s : Nat) : ReactiveGraph :=
  { g with storage := aremove g.storage s }

/-- Modelled from the spec: the write protocol (§4.4) behind
`write_handle.set`: replace the stored value, then call
`notify_subscribers`. -/
def writeSignal (f : Nat) (g : ReactiveGraph) (s v : Nat) : Out :=
  andThen (setValue g s v) (fun g1 => notify_subscribers f g1 s)

/-- Top-level operations: what the test functions do between assertions.
`readTop` is a tracked read performed outside any running effect. -/
inductive Op : Type where
  | newSignal (init : Nat)
  | newEffect (body : Cmd)
  | write (s v : Nat)
  | disposeSig (s : Nat)
  | readTop (s : Nat)
  deriving DecidableEq, Repr

/-- Run one top-level operation. -/
def runOp (f : Nat) (g : ReactiveGraph) : Op → Out
  | .newSignal init => (create_signal g init, none)
  | .newEffect body => create_effect f g (body, [])
  | .write s v => writeSignal f g s v
  | .disposeSig s => (dispose g s, none)
  | .readTop s =>
    match readSignal g s with
    | ⟨g1, er, _⟩ => (g1, er)

/-- Run a sequence of top-level operations; each operation gets the same
fuel budget `f` for whatever synchronous re-run cascade it triggers. -/
def runOps (f : Nat) (g : ReactiveGraph) : List Op → Out
  | [] => (g, none)
  | op :: ops => andThen (runOp f g op) (fun g1 => runOps f g1 ops)

/-! ## Association list lemmas -/

theorem alookup_aset_self {α : Type} (l : List (Nat × α)) (k : Nat) (v : α) :
    alookup (aset l k v) k = some v := by
  induction l with
  | nil => simp [aset, alookup]
  | cons p t ih =>
    obtain ⟨a, b⟩ := p
    by_cases h : a = k
    · simp [aset, h, alookup]
    · simp [aset, h, alookup, ih]

theorem alookup_aset_ne {α : Type} (l : List (Nat × α)) (k k' : Nat) (v : α)
    (h : k' ≠ k) : alookup (aset l k v) k' = alookup l k' := by
  induction l with
  | nil =>
    have hk : ¬ k = k' := fun hh => h hh.symm
    simp [aset, alookup, hk]
  | cons p t ih =>
    obtain ⟨a, b⟩ := p
    by_cases ha : a = k
    · subst ha
      have hk : ¬ a = k' := fun hh => h hh.symm
      simp [aset, alookup, hk]
    · simp only [aset, if_neg ha, alookup]
      by_cases hk : a = k'
      · simp [hk]
      · simp [hk, ih]

theorem alookup_append_some {α : Type} (l t : List (Nat × α)) (k : Nat) (v : α)
    (h : alookup l k = some v) : alookup (l ++ t) k = some v := by
  induction l with
  | nil => simp [alookup] at h
  | cons p r ih =>
    obtain ⟨a, b⟩ := p
    by_cases ha : a = k
    · simp_all [alookup]
    · simp_all [alookup]

theorem alookup_append_none {α : Type} (l t : List (Nat × α)) (k : Nat)
    (h : alookup l k = none) : alookup (l ++ t) k = alookup t k := by
  induction l with
  | nil => simp [alookup]
  | cons p r ih =>
    obtain ⟨a, b⟩ := p
    by_cases ha : a = k
    · simp_all [alookup]
    · simp_all [alookup]

theorem alookup_mem {α : Type} (l : List (Nat × α)) (k : Nat) (v : α)
    (h : alookup l k = some v) : (k, v) ∈ l := by
  induction l with
  | nil => simp [alookup] at h
  | cons p r ih =>
    obtain ⟨a, b⟩ := p
    by_cases ha : a = k
    · subst ha
      simp [alookup] at h
      simp [h]
    · simp [alookup, ha] at h
      exact List.mem_cons_of_mem _ (ih h)

theorem aset_forall_keys {α : Type} {P : Nat → Prop} (l : List (Nat × α)) (k : Nat) (v : α)
    (hl : ∀ p ∈ l, P p.1) (hk : P k) : ∀ p ∈ aset l k v, P p.1 := by
  induction l with
  | nil =>
    intro p hp
    simp only [aset, List.mem_singleton] at hp
    simp [hp, hk]
  | cons q t ih =>
    obtain ⟨a, b⟩ := q
    by_cases ha : a = k
    · subst ha
      simp only [aset, if_pos rfl]
      intro p hp
      rcases List.mem_cons.mp hp with h1 | h1
      · simp [h1, hk]
      · exact hl p (List.mem_cons_of_mem _ h1)
    · simp only [aset, if_neg ha]
      intro p hp
      rcases List.mem_cons.mp hp with h1 | h1
      · exact hl p (by simp [h1])
      · exact ih (fun q hq => hl q (List.mem_cons_of_mem _ hq)) p h1

theorem alookup_aremove_self {α : Type} (l : List (Nat × α)) (k : Nat) :
    alookup (aremove l k) k = none := by
  induction l with
  | nil => simp [aremove, alookup]
  | cons p t ih =>
    obtain ⟨a, b⟩ := p
    by_cases ha : a = k
    · simpa [aremove, ha] using ih
    · simpa [aremove, alookup, ha] using ih

theorem alookup_aremove_ne {α : Type} (l : List (Nat × α)) (k k' : Nat) (h : k' ≠ k) :
    alookup (aremove l k) k' = alookup l k' := by
  induction l with
  | nil => simp [aremove, alookup]
  | cons p t ih =>
    obtain ⟨a, b⟩ := p
    by_cases ha : a = k
    · subst ha
      simp only [aremove, List.filter]
      simp only [decide_not, decide_eq_true_eq]
      simp only [alookup, if_neg (fun hh : a = k' => h hh.symm)]
      simpa [aremove] using ih
    · simp only [aremove, List.filter_cons, decide_not, decide_eq_true_eq]
      rw [if_pos (by simpa using ha)]
      simp only [alookup]
      by_cases hk : a = k'
      · simp [hk]
      · simpa [hk, aremove] using ih

/-! ## Small characterisation lemmas for the graph operations -/

theorem track_absent (g : ReactiveGraph) (s : Nat)
    (h : alookup g.storage s = none) : track g s = g := by
  simp [track, h]

theorem track_no_current (g : ReactiveGraph) (s : Nat)
    (h : g.current = none) : track g s = g := by
  unfold track
  cases h1 : alookup g.storage s with
  | none => rfl
  | some v => simp [h]

theorem untrack_absent (g : ReactiveGraph) (s : Nat)
    (h : alookup g.storage s = none) : untrack g s = g := by
  simp [untrack, h]

theorem notify_absent (f : Nat) (g : ReactiveGraph) (s : Nat)
    (h : alookup g.storage s = none) :
    notify_subscribers (f + 1) g s = (g, none) := by
  simp [notify_subscribers, get_subscribers, h]

theorem run_effect_absent (f : Nat) (g : ReactiveGraph) (e : Nat)
    (h : alookup g.subscribers e = none) :
    run_effect (f + 1) g e = (g, none) := by
  simp [run_effect, h]

theorem setValue_absent (g : ReactiveGraph) (s v : Nat)
    (h : alookup g.storage s = none) : setValue g s v = (g, some RErr.disposed) := by
  simp [setValue, h]

theorem readSignal_absent (g : ReactiveGraph) (s : Nat)
    (h : alookup g.storage s = none) :
    readSignal g s = ⟨g, some RErr.disposed, 0⟩ := by
  rw [readSignal, track_absent g s h, h]

/-- `run_effect` restores the execution context on normal completion,
whatever the closure did. -/
theorem run_effect_restores_current (f : Nat) (g : ReactiveGraph) (e : Nat)
    (g' : ReactiveGraph) (h : run_effect f g e = (g', none)) :
    g'.current = g.current := by
  cases f with
  | zero => simp [run_effect] at h
  | succ f =>
    rw [run_effect] at h
    split at h
    · injection h with h1 h2
      subst h1
      rfl
    · dsimp only at h
      split at h
      · injection h with h1 h2
        exact Option.noConfusion h2
      · injection h with h1 h2
        subst h1
        rfl

/-! ## Concrete scenarios

The test functions of graph.rs (`effect`, `child_effect`, `dispose`)
encoded as operation sequences, together with the intermediate graph
states they reach.  Each step lemma advances one operation; the
reach lemmas chain them into complete `runOps` executions. -/

theorem andThen_ok (g : ReactiveGraph) (k : ReactiveGraph → Out) :
    andThen (g, none) k = k g := rfl

theorem andThen_err (g : ReactiveGraph) (e : RErr) (k : ReactiveGraph → Out) :
    andThen (g, some e) k = (g, some e) := rfl

/-- The closure of the `effect` test (graph.rs lines 189-227): signal 0
is `use_last`, 1 is `first`, 2 is `last`; string values are coded as
numbers (Dario 10, Mario 20, Ballotelli 1, Gomez 2, Bros 3, Kempes 4)
and the concatenation `first + " " + last` as `first * 100 + last + 1`,
kept distinct from the bare `first`. -/
def effBody : Cmd :=
  .ite (.read (.sid 0))
    (.setExt (.add (.mul (.read (.sid 1)) (.lit 100)) (.add (.read (.sid 2)) (.lit 1))))
    (.setExt (.read (.sid 1)))

def effSubs : List (Nat × Closure) := [(0, (effBody, []))]

/-- The child closure of the `child_effect` test: reads `check`
(signal 0) and, when it is set, the inner signal its creator made. -/
def childBody : Cmd := .ite (.read (.sid 0)) (.setExt (.read (.var 0))) .skip

/-- The outer closure of the `child_effect` test (graph.rs lines
239-276): creates an inner signal and a child effect on every run, then
either writes the inner signal (Oscar 32) or reads `outer_name`
(signal 1; Steve 30, Douglas 31). -/
def parentBody : Cmd :=
  .letSignal 0 (.seq (.mkEffect childBody)
    (.ite (.read (.sid 0)) (.write (.var 0) (.lit 32)) (.setExt (.read (.sid 1)))))

def chSubs : List (Nat × Closure) := [(0, (parentBody, [])), (1, (childBody, [2]))]

/-- A closure that just reads signal 0 (used to observe run order). -/
def ordBody : Cmd := .setExt (.read (.sid 0))

def ordSubs : List (Nat × Closure) := [(0, (ordBody, [])), (1, (ordBody, []))]

/-- A closure whose first run fails: it reads a signal id that was
never allocated. -/
def failBody : Cmd := .setExt (.read (.sid 99))


/-- State of the effect-test scenario after 1 operation. -/
def gE1 : ReactiveGraph :=
  ⟨[(0, ⟨0, []⟩)],
   1,
   [],
   0,
   none,
   0,
   [],
   [],
   [],
   [],
   [],
   [],
   false⟩

theorem effStep1 : runOp 24 ReactiveGraph.empty (Op.newSignal 0) = (gE1, none) := by decide

/-- State of the effect-test scenario after 2 operations. -/
def gE2 : ReactiveGraph :=
  ⟨[(0, ⟨0, []⟩), (1, ⟨10, []⟩)],
   2,
   [],
   0,
   none,
   0,
   [],
   [],
   [],
   [],
   [],
   [],
   false⟩

theorem effStep2 : runOp 24 gE1 (Op.newSignal 10) = (gE2, none) := by decide

/-- State of the effect-test scenario after 3 operations. -/
def gE3 : ReactiveGraph :=
  ⟨[(0, ⟨0, []⟩), (1, ⟨10, []⟩), (2, ⟨0, []⟩)],
   3,
   [],
   0,
   none,
   0,
   [],
   [],
   [],
   [],
   [],
   [],
   false⟩

theorem effStep3 : runOp 24 gE2 (Op.newSignal 0) = (gE3, none) := by decide

/-- State of the effect-test scenario after 4 operations. -/
def gE4 : ReactiveGraph :=
  ⟨[(0, ⟨0, [0]⟩), (1, ⟨10, [0]⟩), (2, ⟨0, []⟩)],
   3,
   effSubs,
   1,
   none,
   10,
   [0],
   [0],
   [],
   [(0, [0, 1])],
   [(0, [])],
   [],
   false⟩

theorem effStep4 : runOp 24 gE3 (Op.newEffect effBody) = (gE4, none) := by decide

/-- State of the effect-test scenario after 5 operations. -/
def gE5 : ReactiveGraph :=
  ⟨[(0, ⟨0, [0]⟩), (1, ⟨20, [0]⟩), (2, ⟨0, []⟩)],
   3,
   effSubs,
   1,
   none,
   20,
   [0, 0],
   [0],
   [(1, [0])],
   [(0, [0, 1])],
   [(0, [])],
   [],
   false⟩

theorem effStep5 : runOp 24 gE4 (Op.write 1 20) = (gE5, none) := by decide

/-- State of the effect-test scenario after 6 operations. -/
def gE6 : ReactiveGraph :=
  ⟨[(0, ⟨0, [0]⟩), (1, ⟨20, [0]⟩), (2, ⟨1, []⟩)],
   3,
   effSubs,
   1,
   none,
   20,
   [0, 0],
   [0],
   [(1, [0]), (2, [])],
   [(0, [0, 1])],
   [(0, [])],
   [],
   false⟩

theorem effStep6 : runOp 24 gE5 (Op.write 2 1) = (gE6, none) := by decide

/-- State of the effect-test scenario after 7 operations. -/
def gE7 : ReactiveGraph :=
  ⟨[(0, ⟨1, [0]⟩), (1, ⟨20, [0]⟩), (2, ⟨1, [0]⟩)],
   3,
   effSubs,
   1,
   none,
   2002,
   [0, 0, 0],
   [0],
   [(1, [0]), (2, []), (0, [0])],
   [(0, [0, 1, 2])],
   [(0, [])],
   [],
   false⟩

theorem effStep7 : runOp 24 gE6 (Op.write 0 1) = (gE7, none) := by decide

/-- State of the effect-test scenario after 8 operations. -/
def gE8 : ReactiveGraph :=
  ⟨[(0, ⟨0, [0]⟩), (1, ⟨20, [0]⟩), (2, ⟨1, [0]⟩)],
   3,
   effSubs,
   1,
   none,
   20,
   [0, 0, 0, 0],
   [0],
   [(1, [0]), (2, []), (0, [0]), (0, [0])],
   [(0, [0, 1])],
   [(0, [])],
   [],
   false⟩

theorem effStep8 : runOp 24 gE7 (Op.write 0 0) = (gE8, none) := by decide

/-- State of the effect-test scenario after 9 operations. -/
def gE9 : ReactiveGraph :=
  ⟨[(0, ⟨0, [0]⟩), (1, ⟨20, [0]⟩), (2, ⟨2, []⟩)],
   3,
   effSubs,
   1,
   none,
   20,
   [0, 0, 0, 0, 0],
   [0],
   [(1, [0]), (2, []), (0, [0]), (0, [0]), (2, [0])],
   [(0, [0, 1])],
   [(0, [])],
   [],
   false⟩

theorem effStep9 : runOp 24 gE8 (Op.write 2 2) = (gE9, none) := by decide

/-- State of the effect-test scenario after 10 operations. -/
def gE10 : ReactiveGraph :=
  ⟨[(0, ⟨0, [0]⟩), (1, ⟨20, [0]⟩), (2, ⟨3, []⟩)],
   3,
   effSubs,
   1,
   none,
   20,
   [0, 0, 0, 0, 0],
   [0],
   [(1, [0]), (2, []), (0, [0]), (0, [0]), (2, [0]), (2, [])],
   [(0, [0, 1])],
   [(0, [])],
   [],
   false⟩

theorem effStep10 : runOp 24 gE9 (Op.write 2 3) = (gE10, none) := by decide

/-- State of the effect-test scenario after 11 operations. -/
def gE11 : ReactiveGraph :=
  ⟨[(0, ⟨0, [0]⟩), (1, ⟨20, [0]⟩), (2, ⟨4, []⟩)],
   3,
   effSubs,
   1,
   none,
   20,
   [0, 0, 0, 0, 0],
   [0],
   [(1, [0]), (2, []), (0, [0]), (0, [0]), (2, [0]), (2, []), (2, [])],
   [(0, [0, 1])],
   [(0, [])],
   [],
   false⟩

theorem effStep11 : runOp 24 gE10 (Op.write 2 4) = (gE11, none) := by decide

/-- State of the effect-test scenario after 12 operations. -/
def gE12 : ReactiveGraph :=
  ⟨[(0, ⟨1, [0]⟩), (1, ⟨20, [0]⟩), (2, ⟨4, [0]⟩)],
   3,
   effSubs,
   1,
   none,
   2005,
   [0, 0, 0, 0, 0, 0],
   [0],
   [(1, [0]), (2, []), (0, [0]), (0, [0]), (2, [0]), (2, []), (2, []), (0, [0])],
   [(0, [0, 1, 2])],
   [(0, [])],
   [],
   false⟩

theorem effStep12 : runOp 24 gE11 (Op.write 0 1) = (gE12, none) := by decide

/-- State of the child-effect-test scenario after 1 operation. -/
def gC1 : ReactiveGraph :=
  ⟨[(0, ⟨0, []⟩)],
   1,
   [],
   0,
   none,
   0,
   [],
   [],
   [],
   [],
   [],
   [],
   false⟩

theorem chStep1 : runOp 24 ReactiveGraph.empty (Op.newSignal 0) = (gC1, none) := by decide

/-- State of the child-effect-test scenario after 2 operations. -/
def gC2 : ReactiveGraph :=
  ⟨[(0, ⟨0, []⟩), (1, ⟨30, []⟩)],
   2,
   [],
   0,
   none,
   0,
   [],
   [],
   [],
   [],
   [],
   [],
   false⟩

theorem chStep2 : runOp 24 gC1 (Op.newSignal 30) = (gC2, none) := by decide

/-- State of the child-effect-test scenario after 3 operations. -/
def gC3 : ReactiveGraph :=
  ⟨[(0, ⟨0, [1, 0]⟩), (1, ⟨30, [0]⟩), (2, ⟨0, []⟩)],
   3,
   chSubs,
   2,
   none,
   30,
   [0, 1],
   [0, 1],
   [],
   [(1, [0]), (0, [0, 1])],
   [(0, []), (1, [])],
   [],
   false⟩

theorem chStep3 : runOp 24 gC2 (Op.newEffect parentBody) = (gC3, none) := by decide

/-- State of the run-order scenario after 1 operation. -/
def gO1 : ReactiveGraph :=
  ⟨[(0, ⟨5, []⟩)],
   1,
   [],
   0,
   none,
   0,
   [],
   [],
   [],
   [],
   [],
   [],
   false⟩

theorem ordStep1 : runOp 24 ReactiveGraph.empty (Op.newSignal 5) = (gO1, none) := by decide

/-- State of the run-order scenario after 2 operations. -/
def gO2 : ReactiveGraph :=
  ⟨[(0, ⟨5, [0]⟩)],
   1,
   [(0, (ordBody, []))],
   1,
   none,
   5,
   [0],
   [0],
   [],
   [(0, [0])],
   [(0, [])],
   [],
   false⟩

theorem ordStep2 : runOp 24 gO1 (Op.newEffect ordBody) = (gO2, none) := by decide

/-- State of the run-order scenario after 3 operations. -/
def gO3 : ReactiveGraph :=
  ⟨[(0, ⟨5, [0, 1]⟩)],
   1,
   ordSubs,
   2,
   none,
   5,
   [0, 1],
   [0, 1],
   [],
   [(0, [0]), (1, [0])],
   [(0, []), (1, [])],
   [],
   false⟩

theorem ordStep3 : runOp 24 gO2 (Op.newEffect ordBody) = (gO3, none) := by decide

/-- State of the run-order scenario after 4 operations. -/
def gO4 : ReactiveGraph :=
  ⟨[(0, ⟨7, [0, 1]⟩)],
   1,
   ordSubs,
   2,
   none,
   7,
   [0, 1, 0, 1],
   [0, 1],
   [(0, [0, 1])],
   [(0, [0]), (1, [0])],
   [(0, []), (1, [])],
   [],
   false⟩

theorem ordStep4 : runOp 24 gO3 (Op.write 0 7) = (gO4, none) := by decide

/-- State of the dispose-test scenario after 1 operation. -/
def gD1 : ReactiveGraph :=
  ⟨[(0, ⟨0, []⟩)],
   1,
   [],
   0,
   none,
   0,
   [],
   [],
   [],
   [],
   [],
   [],
   false⟩

theorem dispStep1 : runOp 24 ReactiveGraph.empty (Op.newSignal 0) = (gD1, none) := by decide

/-- State of the dispose-test scenario after 2 operations. -/
def gD2 : ReactiveGraph :=
  ⟨[(0, ⟨1, []⟩)],
   1,
   [],
   0,
   none,
   0,
   [],
   [],
   [(0, [])],
   [],
   [],
   [],
   false⟩

theorem dispStep2 : runOp 24 gD1 (Op.write 0 1) = (gD2, none) := by decide

/-- State of the dispose-test scenario after 3 operations. -/
def gD3 : ReactiveGraph :=
  ⟨[(0, ⟨1, []⟩)],
   1,
   [],
   0,
   none,
   0,
   [],
   [],
   [(0, [])],
   [],
   [],
   [],
   false⟩

theorem dispStep3 : runOp 24 gD2 (Op.readTop 0) = (gD3, none) := by decide

/-- State of the dispose-test scenario after 4 operations. -/
def gD4 : ReactiveGraph :=
  ⟨[],
   1,
   [],
   0,
   none,
   0,
   [],
   [],
   [(0, [])],
   [],
   [],
   [],
   false⟩

theorem dispStep4 : runOp 24 gD3 (Op.disposeSig 0) = (gD4, none) := by decide

/-- Writing the disposed signal fails and leaves the state unchanged. -/
theorem dispStep5 : runOp 24 gD4 (Op.write 0 2) = (gD4, some RErr.disposed) := by decide

/-- State after creating an effect whose closure fails on its first
run: the failure propagated but the entry stays registered. -/
def gF1 : ReactiveGraph :=
  ⟨[],
   0,
   [(0, (failBody, []))],
   1,
   some 0,
   0,
   [0],
   [0],
   [],
   [],
   [(0, [])],
   [0],
   false⟩

theorem failStep : runOp 24 ReactiveGraph.empty (Op.newEffect failBody) = (gF1, some RErr.disposed) := by decide


theorem runOps_nil (f : Nat) (g : ReactiveGraph) : runOps f g [] = (g, none) := rfl

theorem runOps_cons_ok {f : Nat} {g g1 : ReactiveGraph} {op : Op} {ops : List Op}
    {o : Out} (h : runOp f g op = (g1, none)) (h2 : runOps f g1 ops = o) :
    runOps f g (op :: ops) = o := by
  rw [runOps, h, andThen_ok, h2]

theorem runOps_cons_err {f : Nat} {g g1 : ReactiveGraph} {op : Op} {ops : List Op}
    {er : RErr} (h : runOp f g op = (g1, some er)) :
    runOps f g (op :: ops) = (g1, some er) := by
  rw [runOps, h, andThen_err]


theorem effReach8 : runOps 24 ReactiveGraph.empty [Op.newSignal 0, Op.newSignal 10, Op.newSignal 0, Op.newEffect effBody, Op.write 1 20, Op.write 2 1, Op.write 0 1, Op.write 0 0] = (gE8, none) :=
  runOps_cons_ok effStep1 (runOps_cons_ok effStep2 (runOps_cons_ok effStep3 (runOps_cons_ok effStep4 (runOps_cons_ok effStep5 (runOps_cons_ok effStep6 (runOps_cons_ok effStep7 (runOps_cons_ok effStep8 (runOps_nil 24 gE8))))))))

theorem effReach9 : runOps 24 ReactiveGraph.empty [Op.newSignal 0, Op.newSignal 10, Op.newSignal 0, Op.newEffect effBody, Op.write 1 20, Op.write 2 1, Op.write 0 1, Op.write 0 0, Op.write 2 2] = (gE9, none) :=
  runOps_cons_ok effStep1 (runOps_cons_ok effStep2 (runOps_cons_ok effStep3 (runOps_cons_ok effStep4 (runOps_cons_ok effStep5 (runOps_cons_ok effStep6 (runOps_cons_ok effStep7 (runOps_cons_ok effStep8 (runOps_cons_ok effStep9 (runOps_nil 24 gE9)))))))))

theorem effReach10 : runOps 24 ReactiveGraph.empty [Op.newSignal 0, Op.newSignal 10, Op.newSignal 0, Op.newEffect effBody, Op.write 1 20, Op.write 2 1, Op.write 0 1, Op.write 0 0, Op.write 2 2, Op.write 2 3] = (gE10, none) :=
  runOps_cons_ok effStep1 (runOps_cons_ok effStep2 (runOps_cons_ok effStep3 (runOps_cons_ok effStep4 (runOps_cons_ok effStep5 (runOps_cons_ok effStep6 (runOps_cons_ok effStep7 (runOps_cons_ok effStep8 (runOps_cons_ok effStep9 (runOps_cons_ok effStep10 (runOps_nil 24 gE10))))))))))

theorem effReach12 : runOps 24 ReactiveGraph.empty [Op.newSignal 0, Op.newSignal 10, Op.newSignal 0, Op.newEffect effBody, Op.write 1 20, Op.write 2 1, Op.write 0 1, Op.write 0 0, Op.write 2 2, Op.write 2 3, Op.write 2 4, Op.write 0 1] = (gE12, none) :=
  runOps_cons_ok effStep1 (runOps_cons_ok effStep2 (runOps_cons_ok effStep3 (runOps_cons_ok effStep4 (runOps_cons_ok effStep5 (runOps_cons_ok effStep6 (runOps_cons_ok effStep7 (runOps_cons_ok effStep8 (runOps_cons_ok effStep9 (runOps_cons_ok effStep10 (runOps_cons_ok effStep11 (runOps_cons_ok effStep12 (runOps_nil 24 gE12))))))))))))

theorem chReach3 : runOps 24 ReactiveGraph.empty [Op.newSignal 0, Op.newSignal 30, Op.newEffect parentBody] = (gC3, none) :=
  runOps_cons_ok chStep1 (runOps_cons_ok chStep2 (runOps_cons_ok chStep3 (runOps_nil 24 gC3)))

theorem ordReach4 : runOps 24 ReactiveGraph.empty [Op.newSignal 5, Op.newEffect ordBody, Op.newEffect ordBody, Op.write 0 7] = (gO4, none) :=
  runOps_cons_ok ordStep1 (runOps_cons_ok ordStep2 (runOps_cons_ok ordStep3 (runOps_cons_ok ordStep4 (runOps_nil 24 gO4))))

theorem dispReach5 : runOps 24 ReactiveGraph.empty [Op.newSignal 0, Op.write 0 1, Op.readTop 0, Op.disposeSig 0, Op.write 0 2] = (gD4, some RErr.disposed) :=
  runOps_cons_ok dispStep1 (runOps_cons_ok dispStep2 (runOps_cons_ok dispStep3 (runOps_cons_ok dispStep4 (runOps_cons_err dispStep5))))

/-! ## Monotonicity: executions only extend the registry and the logs -/

/-- `g'` is a state reachable from `g`: the subscriber registry and the
run log only grow (entries are never removed or overwritten), fresh-id
counters never decrease, and live signals stay live. -/
def Extends (g g' : ReactiveGraph) : Prop :=
  (∃ t, g'.subscribers = g.subscribers ++ t) ∧
  (∃ t, g'.runLog = g.runLog ++ t) ∧
  g.nextSig ≤ g'.nextSig ∧ g.nextEff ≤ g'.nextEff ∧
  (∀ s, liveSig g s = true → liveSig g' s = true)

theorem extends_refl (g : ReactiveGraph) : Extends g g :=
  ⟨⟨[], by simp⟩, ⟨[], by simp⟩, le_refl _, le_refl _, fun _ h => h⟩

theorem extends_trans {g1 g2 g3 : ReactiveGraph}
    (h1 : Extends g1 g2) (h2 : Extends g2 g3) : Extends g1 g3 := by
  obtain ⟨⟨t1, hs1⟩, ⟨u1, hr1⟩, hn1, he1, hl1⟩ := h1
  obtain ⟨⟨t2, hs2⟩, ⟨u2, hr2⟩, hn2, he2, hl2⟩ := h2
  exact ⟨⟨t1 ++ t2, by rw [hs2, hs1, List.append_assoc]⟩,
         ⟨u1 ++ u2, by rw [hr2, hr1, List.append_assoc]⟩,
         le_trans hn1 hn2, le_trans he1 he2, fun s h => hl2 s (hl1 s h)⟩

/-- Build `Extends` from field-level facts. -/
theorem Extends.of_fields {g g' : ReactiveGraph}
    (h1 : g'.subscribers = g.subscribers) (h2 : g'.runLog = g.runLog)
    (h3 : ∀ s, liveSig g s = true → liveSig g' s = true)
    (h4 : g.nextSig ≤ g'.nextSig) (h5 : g.nextEff ≤ g'.nextEff) : Extends g g' :=
  ⟨⟨[], by simp [h1]⟩, ⟨[], by simp [h2]⟩, h4, h5, h3⟩

theorem liveSig_aset {g g' : ReactiveGraph} {k : Nat} {v : StoredValue}
    (hst : g'.storage = aset g.storage k v) (s : Nat)
    (h : liveSig g s = true) : liveSig g' s = true := by
  unfold liveSig at *
  rw [hst]
  by_cases hk : s = k
  · subst hk
    rw [alookup_aset_self]
    rfl
  · rw [alookup_aset_ne _ _ _ _ hk]
    exact h

theorem liveSig_append {g g' : ReactiveGraph} {t : List (Nat × StoredValue)}
    (hst : g'.storage = g.storage ++ t) (s : Nat)
    (h : liveSig g s = true) : liveSig g' s = true := by
  unfold liveSig at *
  rw [hst]
  cases hx : alookup g.storage s with
  | none => rw [hx] at h; exact absurd h (by simp)
  | some v => rw [alookup_append_some _ _ _ _ hx]; rfl

theorem track_extends (g : ReactiveGraph) (s : Nat) : Extends g (track g s) := by
  unfold track
  cases h1 : alookup g.storage s with
  | none => exact extends_refl g
  | some v =>
    cases h2 : g.current with
    | none => exact extends_refl g
    | some e =>
      exact Extends.of_fields rfl rfl (fun x h => liveSig_aset rfl x h) (le_refl _) (le_refl _)

theorem untrack_extends (g : ReactiveGraph) (s : Nat) : Extends g (untrack g s) := by
  unfold untrack
  cases h1 : alookup g.storage s with
  | none => exact extends_refl g
  | some v =>
    exact Extends.of_fields rfl rfl (fun x h => liveSig_aset rfl x h) (le_refl _) (le_refl _)

theorem readSignal_extends (g : ReactiveGraph) (s : Nat) :
    Extends g (readSignal g s).g := by
  unfold readSignal
  dsimp only
  split
  · exact track_extends g s
  · exact track_extends g s

theorem setValue_extends (g : ReactiveGraph) (s v : Nat) :
    Extends g (setValue g s v).1 := by
  unfold setValue
  cases h1 : alookup g.storage s with
  | none => exact extends_refl g
  | some old =>
    exact Extends.of_fields rfl rfl (fun x h => liveSig_aset rfl x h) (le_refl _) (le_refl _)

theorem evalExp_extends (env : List Nat) (g : ReactiveGraph) (x : Exp) :
    Extends g (evalExp env g x).g := by
  induction x generalizing g with
  | lit n => exact extends_refl g
  | read r => exact readSignal_extends g (resolveRef env r)
  | add a b iha ihb =>
    rw [evalExp]
    split
    next g1 er v heq =>
      have ha := iha g
      rw [heq] at ha
      exact ha
    next g1 v1 heq =>
      have ha := iha g
      rw [heq] at ha
      split
      next g2 er v heq2 =>
        have hb := ihb g1
        rw [heq2] at hb
        exact extends_trans ha hb
      next g2 v2 heq2 =>
        have hb := ihb g1
        rw [heq2] at hb
        exact extends_trans ha hb
  | mul a b iha ihb =>
    rw [evalExp]
    split
    next g1 er v heq =>
      have ha := iha g
      rw [heq] at ha
      exact ha
    next g1 v1 heq =>
      have ha := iha g
      rw [heq] at ha
      split
      next g2 er v heq2 =>
        have hb := ihb g1
        rw [heq2] at hb
        exact extends_trans ha hb
      next g2 v2 heq2 =>
        have hb := ihb g1
        rw [heq2] at hb
        exact extends_trans ha hb

theorem extends_andThen {g : ReactiveGraph} {o : Out} {k : ReactiveGraph → Out}
    (h1 : Extends g o.1) (h2 : ∀ g1, Extends g1 (k g1).1) :
    Extends g (andThen o k).1 := by
  obtain ⟨g1, r⟩ := o
  cases r with
  | none => exact extends_trans h1 (h2 g1)
  | some er => exact h1

/-- Every operation of the interpreter family produces a state that
extends its input, whether it completes or fails. -/
theorem extends_all (f : Nat) :
    (∀ env g c, Extends g (runCmd f env g c).1) ∧
    (∀ g s, Extends g (notify_subscribers f g s).1) ∧
    (∀ g l, Extends g (run_list f g l).1) ∧
    (∀ g e, Extends g (run_effect f g e).1) ∧
    (∀ g cl, Extends g (create_effect f g cl).1) := by
  induction f with
  | zero =>
    exact ⟨fun env g c => extends_refl g, fun g s => extends_refl g,
           fun g l => extends_refl g, fun g e => extends_refl g,
           fun g cl => extends_refl g⟩
  | succ f ih =>
    obtain ⟨ihC, ihN, ihL, ihE, ihX⟩ := ih
    have hCmd : ∀ env g c, Extends g (runCmd (f + 1) env g c).1 := by
      intro env g c
      cases c with
      | skip => exact extends_refl g
      | seq a b =>
        rw [runCmd]
        exact extends_andThen (ihC env g a) (fun g1 => ihC env g1 b)
      | ite cnd a b =>
        rw [runCmd]
        split
        next g1 er v heq =>
          have h := evalExp_extends env g cnd
          rw [heq] at h
          exact h
        next g1 v heq =>
          have h := evalExp_extends env g cnd
          rw [heq] at h
          by_cases hv : v ≠ 0
          · rw [if_pos hv]
            exact extends_trans h (ihC env g1 a)
          · rw [if_neg hv]
            exact extends_trans h (ihC env g1 b)
      | write r e =>
        rw [runCmd]
        split
        next g1 er v heq =>
          have h := evalExp_extends env g e
          rw [heq] at h
          exact h
        next g1 v heq =>
          have h := evalExp_extends env g e
          rw [heq] at h
          exact extends_trans h
            (extends_andThen (setValue_extends g1 (resolveRef env r) v)
              (fun g2 => ihN g2 (resolveRef env r)))
      | setExt e =>
        rw [runCmd]
        split
        next g1 er v heq =>
          have h := evalExp_extends env g e
          rw [heq] at h
          exact h
        next g1 v heq =>
          have h := evalExp_extends env g e
          rw [heq] at h
          exact extends_trans h
            (Extends.of_fields rfl rfl (fun s hs => hs) (le_refl _) (le_refl _))
      | letSignal init k =>
        rw [runCmd]
        have h1 : Extends g { g with
            storage := g.storage ++ [(g.nextSig, ⟨init, []⟩)]
            nextSig := g.nextSig + 1 } :=
          Extends.of_fields rfl rfl (fun s hs => liveSig_append rfl s hs)
            (Nat.le_succ _) (le_refl _)
        exact extends_trans h1 (ihC (g.nextSig :: env) _ k)
      | mkEffect body =>
        rw [runCmd]
        exact ihX g (body, env)
    have hNtf : ∀ g s, Extends g (notify_subscribers (f + 1) g s).1 := by
      intro g s
      rw [notify_subscribers]
      split
      · exact extends_refl g
      next subs heq =>
        refine extends_trans (untrack_extends g s) (extends_trans ?_ (ihL _ subs))
        exact Extends.of_fields rfl rfl (fun x hx => hx) (le_refl _) (le_refl _)
    have hLst : ∀ g l, Extends g (run_list (f + 1) g l).1 := by
      intro g l
      cases l with
      | nil => exact extends_refl g
      | cons e es =>
        rw [run_list]
        exact extends_andThen (ihE g e) (fun g1 => ihL g1 es)
    have hEff : ∀ g e, Extends g (run_effect (f + 1) g e).1 := by
      intro g e
      rw [run_effect]
      split
      · exact Extends.of_fields rfl rfl (fun x hx => hx) (le_refl _) (le_refl _)
      next body env heq =>
        dsimp only
        have hg2 : Extends g { g with
            current := some e
            runLog := g.runLog ++ [e]
            stack := e :: g.stack
            reentered := g.reentered || g.stack.contains e
            acc := aset g.acc e [] } :=
          ⟨⟨[], by simp⟩, ⟨[e], rfl⟩, le_refl _, le_refl _, fun x hx => hx⟩
        have h := ihC env { g with
            current := some e
            runLog := g.runLog ++ [e]
            stack := e :: g.stack
            reentered := g.reentered || g.stack.contains e
            acc := aset g.acc e [] } body
        split
        next g3 er heq2 =>
          rw [heq2] at h
          exact extends_trans hg2 h
        next g3 heq2 =>
          rw [heq2] at h
          exact extends_trans hg2
            (extends_trans h
              (Extends.of_fields rfl rfl (fun x hx => hx) (le_refl _) (le_refl _)))
    have hCre : ∀ g cl, Extends g (create_effect (f + 1) g cl).1 := by
      intro g cl
      rw [create_effect]
      have h1 : Extends g { g with
          subscribers := g.subscribers ++ [(g.nextEff, cl)]
          nextEff := g.nextEff + 1
          createdLog := g.createdLog ++ [g.nextEff] } :=
        ⟨⟨[(g.nextEff, cl)], rfl⟩, ⟨[], by simp⟩, le_refl _, Nat.le_succ _,
         fun x hx => hx⟩
      exact extends_trans h1 (ihE _ g.nextEff)
    exact ⟨hCmd, hNtf, hLst, hEff, hCre⟩

/-- A registry entry survives any interpreter operation. -/
theorem registered_persists {g g' : ReactiveGraph} (h : Extends g g')
    {k : Nat} {cl : Closure} (hk : alookup g.subscribers k = some cl) :
    alookup g'.subscribers k = some cl := by
  obtain ⟨⟨t, hs⟩, _, _, _, _⟩ := h
  rw [hs]
  exact alookup_append_some _ _ _ _ hk

theorem alookup_none_of_keys_lt {α : Type} (l : List (Nat × α)) (n : Nat)
    (h : ∀ p ∈ l, p.1 < n) : alookup l n = none := by
  cases hx : alookup l n with
  | none => rfl
  | some v =>
    have hm := h _ (alookup_mem _ _ _ hx)
    exact absurd hm (by simp)

/-- State after running effect 0 once more on `gE8` (used as a concrete
instance of the context-restore property). -/
def gE8r : ReactiveGraph :=
  ⟨[(0, ⟨0, [0]⟩), (1, ⟨20, [0]⟩), (2, ⟨1, [0]⟩)], 3, effSubs, 1, none, 20,
   [0, 0, 0, 0, 0], [0], [(1, [0]), (2, []), (0, [0]), (0, [0])],
   [(0, [0, 1])], [(0, [])], [], false⟩

theorem run_effect_gE8 : run_effect 20 gE8 0 = (gE8r, none) := by decide

theorem ordReach3 : runOps 24 ReactiveGraph.empty
    [Op.newSignal 5, Op.newEffect ordBody, Op.newEffect ordBody] = (gO3, none) :=
  runOps_cons_ok ordStep1 (runOps_cons_ok ordStep2 (runOps_cons_ok ordStep3 (runOps_nil 24 gO3)))

/-! ## The claims -/

/-- C6: a tracked read performed while the execution context holds no
running effect leaves the graph — in particular every signal's
subscriber set — unchanged: no subscription is ever added outside a
running effect. -/
theorem C6_no_subscription_outside_effect (g : ReactiveGraph) (s : Nat)
    (h : g.current = none) :
    track g s = g ∧ (readSignal g s).g = g := by
  have ht := track_no_current g s h
  refine ⟨ht, ?_⟩
  rw [readSignal]
  cases hx : alookup (track g s).storage s with
  | none => rw [ht]
  | some v => rw [ht]

theorem C6_witness :
    gE8.current = none ∧ track gE8 2 = gE8 ∧ (readSignal gE8 2).g = gE8 := by
  have h := C6_no_subscription_outside_effect gE8 2 (by decide)
  exact ⟨by decide, h.1, h.2⟩

/-- C9: during notification, an effect id whose registry entry resolves
to absent is skipped: no closure runs, nothing fails, the state —
including the execution context, restored to its prior value — is
exactly as before. -/
theorem C9_absent_effect_skipped (f : Nat) (g : ReactiveGraph) (e : Nat)
    (h : alookup g.subscribers e = none) :
    run_effect (f + 1) g e = (g, none) :=
  run_effect_absent f g e h

theorem C9_witness :
    alookup gE8.subscribers 3 = none ∧ run_effect 7 gE8 3 = (gE8, none) :=
  ⟨by decide, C9_absent_effect_skipped 6 gE8 3 (by decide)⟩

/-- C10: for a `ReactiveId` absent from the value store, `track`,
`untrack` and `notify_subscribers` all return silently with the state
unchanged: no subscriber added, no set cleared, no effect run, no
failure. -/
theorem C10_absent_signal_silent (f : Nat) (g : ReactiveGraph) (s : Nat)
    (h : alookup g.storage s = none) :
    track g s = g ∧ untrack g s = g ∧ notify_subscribers (f + 1) g s = (g, none) :=
  ⟨track_absent g s h, untrack_absent g s h, notify_absent f g s h⟩

theorem C10_witness :
    alookup gE8.storage 9 = none ∧
    track gE8 9 = gE8 ∧ untrack gE8 9 = gE8 ∧
    notify_subscribers 24 gE8 9 = (gE8, none) := by
  have h := C10_absent_signal_silent 23 gE8 9 (by decide)
  exact ⟨by decide, h.1, h.2.1, h.2.2⟩

/-- C8: for a disposed (absent) signal, a tracked read through a
retained read handle fails loudly instead of producing a stale or
default value, and a write through a retained write handle fails
instead of being a silent no-op; the dispose-test scenario reaches
exactly such failures. -/
theorem C8_disposed_access_fails (f : Nat) (g : ReactiveGraph) (s v : Nat)
    (h : alookup g.storage s = none) :
    readSignal g s = ⟨g, some RErr.disposed, 0⟩ ∧
    writeSignal f g s v = (g, some RErr.disposed) ∧
    runOps 24 ReactiveGraph.empty
      [Op.newSignal 0, Op.write 0 1, Op.readTop 0, Op.disposeSig 0, Op.write 0 2]
      = (gD4, some RErr.disposed) ∧
    runOp 24 gD4 (Op.readTop 0) = (gD4, some RErr.disposed) := by
  refine ⟨readSignal_absent g s h, ?_, dispReach5, by decide⟩
  rw [writeSignal, setValue_absent g s v h, andThen_err]

theorem C8_witness :
    alookup gD4.storage 0 = none ∧
    readSignal gD4 0 = ⟨gD4, some RErr.disposed, 0⟩ ∧
    writeSignal 24 gD4 0 2 = (gD4, some RErr.disposed) := by
  have h := C8_disposed_access_fails 24 gD4 0 2 (by decide)
  exact ⟨by decide, h.1, h.2.1⟩

/-- C4: `run_effect` saves the execution context and restores it after
the closure's run completes, whatever the closure did; consequently (as
the nested-effect scenario of the `child_effect` test shows) an effect
created while another runs subscribes only to the signals its own
closure reads: the child effect (id 1) is in the subscriber set of
`check` (signal 0), which it read, and not in the set of `outer_name`
(signal 1), which only its creator read, nor in the set of the inner
signal (2) whose read sits in the branch not taken. -/
theorem C4_context_save_restore (f : Nat) (g : ReactiveGraph) (e : Nat)
    (g' : ReactiveGraph) (h : run_effect f g e = (g', none)) :
    g'.current = g.current ∧
    (runOps 24 ReactiveGraph.empty
        [Op.newSignal 0, Op.newSignal 30, Op.newEffect parentBody] = (gC3, none) ∧
      subsOf gC3 0 = [1, 0] ∧ subsOf gC3 1 = [0] ∧ subsOf gC3 2 = []) :=
  ⟨run_effect_restores_current f g e g' h,
   chReach3, by decide, by decide, by decide⟩

theorem C4_witness :
    run_effect 20 gE8 0 = (gE8r, none) ∧ gE8r.current = gE8.current :=
  ⟨run_effect_gE8, (C4_context_save_restore 20 gE8 0 gE8r run_effect_gE8).1⟩

/-- C7: `create_effect` inserts the wrapped subscriber entry into the
registry under the fresh id and then invokes the run protocol on it
exactly once before returning (second conjunct: it literally is that
single `run_effect` call on the extended registry); the entry is
registered in the resulting state even when the first run fails, and
the failure propagates to the caller, as the failing-closure scenario
shows (`gF1` holds the entry and the error reaches the caller of the
`newEffect` operation). -/
theorem C7_create_effect_contract (f : Nat) (g : ReactiveGraph) (cl : Closure)
    (hk : ∀ p ∈ g.subscribers, p.1 < g.nextEff) :
    alookup (create_effect (f + 1) g cl).1.subscribers g.nextEff = some cl ∧
    create_effect (f + 1) g cl =
      run_effect f { g with
        subscribers := g.subscribers ++ [(g.nextEff, cl)]
        nextEff := g.nextEff + 1
        createdLog := g.createdLog ++ [g.nextEff] } g.nextEff ∧
    runOp 24 ReactiveGraph.empty (Op.newEffect failBody) = (gF1, some RErr.disposed) ∧
    alookup gF1.subscribers 0 = some (failBody, []) ∧ gF1.runLog = [0] := by
  have hin : alookup (g.subscribers ++ [(g.nextEff, cl)]) g.nextEff = some cl := by
    rw [alookup_append_none _ _ _ (alookup_none_of_keys_lt _ _ hk)]
    simp [alookup]
  refine ⟨?_, by rw [create_effect], failStep, by decide, by decide⟩
  rw [create_effect]
  exact registered_persists ((extends_all f).2.2.2.1 _ g.nextEff) hin

theorem C7_witness :
    (∀ p ∈ ReactiveGraph.empty.subscribers, p.1 < ReactiveGraph.empty.nextEff) ∧
    alookup (create_effect 24 ReactiveGraph.empty (failBody, [])).1.subscribers 0
      = some (failBody, []) := by
  have h := C7_create_effect_contract 23 ReactiveGraph.empty (failBody, [])
    (by simp [ReactiveGraph.empty])
  exact ⟨by simp [ReactiveGraph.empty], h.1⟩

/-- C3 counterexample: in the `effect` test scenario, after the run in
which `use_last` went back to `false` (state `gE8`, quiescent), the
branch reading `last` (signal 2) was not taken — the most recent run of
effect 0 tracked only `use_last` (0) and `first` (1) — yet effect 0 is
still in signal 2's subscriber set, and the next write to signal 2 does
re-run the effect: the claim's "no longer in that signal's subscriber
set, so subsequent writes do not re-run the effect" is false on the
code. -/
theorem C3_counterexample :
    runOps 24 ReactiveGraph.empty
      [Op.newSignal 0, Op.newSignal 10, Op.newSignal 0, Op.newEffect effBody,
       Op.write 1 20, Op.write 2 1, Op.write 0 1, Op.write 0 0] = (gE8, none) ∧
    lastReadsOf gE8 0 = [0, 1] ∧
    0 ∈ subsOf gE8 2 ∧
    runOp 24 gE8 (Op.write 2 2) = (gE9, none) ∧
    gE9.runLog = gE8.runLog ++ [0] :=
  ⟨effReach8, by decide, by decide, effStep9, by decide⟩

/-- C3 amended: after a run in which the branch reading the signal is
not taken, the stale subscription persists until the *next* write to
that signal; that write re-runs the effect once — leaving its output
unchanged, since the branch reading the signal is again not taken — and
clears the entry, so writes after it no longer re-run the effect (and
the external output never changes). -/
theorem C3_amended_stale_until_next_write :
    runOps 24 ReactiveGraph.empty
      [Op.newSignal 0, Op.newSignal 10, Op.newSignal 0, Op.newEffect effBody,
       Op.write 1 20, Op.write 2 1, Op.write 0 1, Op.write 0 0,
       Op.write 2 2] = (gE9, none) ∧
    gE9.ext = 20 ∧
    subsOf gE9 2 = [] ∧
    runOp 24 gE9 (Op.write 2 3) = (gE10, none) ∧
    gE10.runLog = gE9.runLog ∧
    gE10.ext = 20 :=
  ⟨effReach9, by decide, by decide, effStep10, by decide, by decide⟩

/-- C1 counterexample: `gE8` is a reachable quiescent state (no effect
running, nothing in progress) in which signal 2 is live and its
subscriber set contains effect 0, although effect 0's most recent run
did not track signal 2 — a stale entry, so the subscriber set does not
equal the set of effects whose most recent run read the signal. -/
theorem C1_counterexample :
    runOps 24 ReactiveGraph.empty
      [Op.newSignal 0, Op.newSignal 10, Op.newSignal 0, Op.newEffect effBody,
       Op.write 1 20, Op.write 2 1, Op.write 0 1, Op.write 0 0] = (gE8, none) ∧
    gE8.current = none ∧ gE8.stack = [] ∧
    liveSig gE8 2 = true ∧
    0 ∈ subsOf gE8 2 ∧
    2 ∉ lastReadsOf gE8 0 :=
  ⟨effReach8, by decide, by decide, by decide, by decide, by decide⟩

/-- C2: writing a signal whose subscriber set is non-empty performs,
inside the single `notify_subscribers` call and before control returns:
the subscriber set is cleared (`untrack`), the previously subscribed
effects are snapshotted as a list in registration (insertion) order —
the snapshot is taken from the pre-clear set — and each snapshotted
effect is run to completion strictly sequentially in that order
(`run_list` processes the head to completion before the tail).  The
scenario conjuncts observe this on two effects registered in order
[0, 1]: the write re-runs them exactly in that order. -/
theorem C2_notify_clears_snapshots_runs_in_order (f : Nat) (g : ReactiveGraph)
    (s : Nat) (v : StoredValue)
    (hs : alookup g.storage s = some v) (hne : v.subscribers ≠ []) :
    notify_subscribers (f + 1) g s =
      run_list f
        { untrack g s with
          trigLog := (untrack g s).trigLog ++ [(s, v.subscribers)] }
        v.subscribers ∧
    subsOf (untrack g s) s = [] ∧
    (runOps 24 ReactiveGraph.empty
        [Op.newSignal 5, Op.newEffect ordBody, Op.newEffect ordBody] = (gO3, none) ∧
      subsOf gO3 0 = [0, 1] ∧
      runOp 24 gO3 (Op.write 0 7) = (gO4, none) ∧
      gO4.runLog = gO3.runLog ++ [0, 1]) := by
  refine ⟨?_, ?_, ordReach3, by decide, ordStep4, by decide⟩
  · rw [notify_subscribers, get_subscribers, hs]
    rfl
  · rw [subsOf, untrack, hs]
    simp [alookup_aset_self]

theorem C2_witness :
    alookup gO3.storage 0 = some ⟨5, [0, 1]⟩ ∧
    (⟨5, [0, 1]⟩ : StoredValue).subscribers ≠ [] ∧
    subsOf (untrack gO3 0) 0 = [] :=
  ⟨by decide, by decide,
   (C2_notify_clears_snapshots_runs_in_order 23 gO3 0 ⟨5, [0, 1]⟩
      (by decide) (by decide)).2.1⟩

/-! ## Counting runs, creations and triggering writes (for C5) -/

/-- How many times effect `e`'s closure has run. -/
def nruns (g : ReactiveGraph) (e : Nat) : Nat := g.runLog.count e

/-- How many times effect `e` was created (0 or 1). -/
def ncreated (g : ReactiveGraph) (e : Nat) : Nat := g.createdLog.count e

/-- How many writes notified a signal whose subscriber set contained `e`
at the moment of the write. -/
def ntrig (g : ReactiveGraph) (e : Nat) : Nat :=
  (g.trigLog.filter (fun p => e ∈ p.2)).length

/-- Whether an effect id has an entry in the subscriber registry. -/
def isRegistered (g : ReactiveGraph) (e : Nat) : Bool :=
  (alookup g.subscribers e).isSome

/-- Well-formedness carried through every execution: registry keys are
below the fresh-id counter, every subscriber list is duplicate-free and
mentions only registered effects, the running effect is registered, and
the creation log is duplicate-free with ids below the counter. -/
def WF5 (g : ReactiveGraph) : Prop :=
  (∀ p ∈ g.subscribers, p.1 < g.nextEff) ∧
  (∀ s v, alookup g.storage s = some v →
    v.subscribers.Nodup ∧ ∀ e ∈ v.subscribers, isRegistered g e = true) ∧
  (∀ e, g.current = some e → isRegistered g e = true) ∧
  (∀ x ∈ g.createdLog, x < g.nextEff) ∧ g.createdLog.Nodup

/-- The ghost logs are untouched. -/
def SameLogs (g g' : ReactiveGraph) : Prop :=
  g'.runLog = g.runLog ∧ g'.createdLog = g.createdLog ∧ g'.trigLog = g.trigLog

/-- The run count changed exactly by the creation count change plus the
triggering-write count change. -/
def RunBalance (g g' : ReactiveGraph) : Prop :=
  ∀ e, nruns g' e + ncreated g e + ntrig g e = nruns g e + ncreated g' e + ntrig g' e

theorem runBalance_refl (g : ReactiveGraph) : RunBalance g g := fun _ => rfl

theorem runBalance_trans {g1 g2 g3 : ReactiveGraph}
    (h1 : RunBalance g1 g2) (h2 : RunBalance g2 g3) : RunBalance g1 g3 := by
  intro e
  have a1 := h1 e
  have a2 := h2 e
  omega

theorem RunBalance.of_sameLogs {g g' : ReactiveGraph} (h : SameLogs g g') :
    RunBalance g g' := by
  intro e
  unfold nruns ncreated ntrig
  rw [h.1, h.2.1, h.2.2]

theorem sameLogs_refl (g : ReactiveGraph) : SameLogs g g := ⟨rfl, rfl, rfl⟩

theorem sameLogs_trans {g1 g2 g3 : ReactiveGraph}
    (h1 : SameLogs g1 g2) (h2 : SameLogs g2 g3) : SameLogs g1 g3 :=
  ⟨h2.1.trans h1.1, h2.2.1.trans h1.2.1, h2.2.2.trans h1.2.2⟩

theorem andThen_eq_ok {o : Out} {k : ReactiveGraph → Out} {g' : ReactiveGraph}
    (h : andThen o k = (g', none)) :
    ∃ g1, o = (g1, none) ∧ k g1 = (g', none) := by
  obtain ⟨g1, r⟩ := o
  cases r with
  | none => exact ⟨g1, rfl, h⟩
  | some er =>
    rw [andThen_err] at h
    injection h with h1 h2
    exact Option.noConfusion h2

theorem alookup_append_cases {α : Type} {l t : List (Nat × α)} {k : Nat} {v : α}
    (h : alookup (l ++ t) k = some v) :
    alookup l k = some v ∨ (alookup l k = none ∧ alookup t k = some v) := by
  cases hx : alookup l k with
  | none => exact Or.inr ⟨rfl, by rw [alookup_append_none _ _ _ hx] at h; exact h⟩
  | some w =>
    left
    rw [alookup_append_some _ _ _ _ hx] at h
    exact hx ▸ h

theorem alookup_aset_cases {α : Type} {l : List (Nat × α)} {k k' : Nat} {v w : α}
    (h : alookup (aset l k v) k' = some w) :
    (k' = k ∧ w = v) ∨ (k' ≠ k ∧ alookup l k' = some w) := by
  by_cases hk : k' = k
  · subst hk
    rw [alookup_aset_self] at h
    exact Or.inl ⟨rfl, (Option.some_inj.mp h).symm⟩
  · rw [alookup_aset_ne _ _ _ _ hk] at h
    exact Or.inr ⟨hk, h⟩

theorem add_subscriber_nodup {v : StoredValue} {e : Nat} (h : v.subscribers.Nodup) :
    (add_subscriber v e).subscribers.Nodup := by
  unfold add_subscriber
  split
  · exact h
  next hmem =>
    rw [List.nodup_append]
    exact ⟨h, List.nodup_singleton e, by simpa using hmem⟩

theorem add_subscriber_mem {v : StoredValue} {e x : Nat}
    (h : x ∈ (add_subscriber v e).subscribers) : x ∈ v.subscribers ∨ x = e := by
  unfold add_subscriber at h
  split at h
  · exact Or.inl h
  · rcases List.mem_append.mp h with h' | h'
    · exact Or.inl h'
    · simp at h'
      exact Or.inr h'

theorem track_wf5 {g : ReactiveGraph} (s : Nat) (h : WF5 g) :
    WF5 (track g s) ∧ SameLogs g (track g s) := by
  obtain ⟨h1, h2, h3, h4, h5⟩ := h
  unfold track
  cases hx : alookup g.storage s with
  | none => exact ⟨⟨h1, h2, h3, h4, h5⟩, sameLogs_refl g⟩
  | some v =>
    cases hc : g.current with
    | none => exact ⟨⟨h1, h2, h3, h4, h5⟩, sameLogs_refl g⟩
    | some e =>
      dsimp only
      refine ⟨⟨h1, ?_, ?_, h4, h5⟩, ⟨rfl, rfl, rfl⟩⟩
      case refine_2 =>
        intro e1 he1
        injection he1 with he1
        subst he1
        exact h3 _ hc
      intro s' v' hv'
      rcases alookup_aset_cases hv' with ⟨hs', hv⟩ | ⟨hs', hold⟩
      · subst hv
        refine ⟨add_subscriber_nodup (h2 s v hx).1, ?_⟩
        intro x hx'
        rcases add_subscriber_mem hx' with hm | hm
        · exact (h2 s v hx).2 x hm
        · subst hm
          exact h3 x hc
      · exact h2 s' v' hold

theorem untrack_wf5 {g : ReactiveGraph} (s : Nat) (h : WF5 g) :
    WF5 (untrack g s) ∧ SameLogs g (untrack g s) := by
  obtain ⟨h1, h2, h3, h4, h5⟩ := h
  unfold untrack
  cases hx : alookup g.storage s with
  | none => exact ⟨⟨h1, h2, h3, h4, h5⟩, sameLogs_refl g⟩
  | some v =>
    dsimp only
    refine ⟨⟨h1, ?_, h3, h4, h5⟩, ⟨rfl, rfl, rfl⟩⟩
    intro s' v' hv'
    rcases alookup_aset_cases hv' with ⟨hs', hv⟩ | ⟨hs', hold⟩
    · subst hv
      exact ⟨List.nodup_nil, by simp⟩
    · exact h2 s' v' hold

theorem setValue_wf5 {g : ReactiveGraph} (s v : Nat) (h : WF5 g) :
    WF5 (setValue g s v).1 ∧ SameLogs g (setValue g s v).1 := by
  obtain ⟨h1, h2, h3, h4, h5⟩ := h
  unfold setValue
  cases hx : alookup g.storage s with
  | none => exact ⟨⟨h1, h2, h3, h4, h5⟩, sameLogs_refl g⟩
  | some old =>
    dsimp only
    refine ⟨⟨h1, ?_, h3, h4, h5⟩, ⟨rfl, rfl, rfl⟩⟩
    intro s' v' hv'
    rcases alookup_aset_cases hv' with ⟨hs', hv⟩ | ⟨hs', hold⟩
    · subst hv
      exact h2 s old hx
    · exact h2 s' v' hold

theorem readSignal_wf5 {g : ReactiveGraph} (s : Nat) (h : WF5 g) :
    WF5 (readSignal g s).g ∧ SameLogs g (readSignal g s).g := by
  unfold readSignal
  dsimp only
  split
  · exact track_wf5 s h
  · exact track_wf5 s h

theorem evalExp_wf5 {env : List Nat} {g : ReactiveGraph} (x : Exp) (h : WF5 g) :
    WF5 (evalExp env g x).g ∧ SameLogs g (evalExp env g x).g := by
  induction x generalizing g with
  | lit n => exact ⟨h, sameLogs_refl g⟩
  | read r => exact readSignal_wf5 _ h
  | add a b iha ihb =>
    rw [evalExp]
    split
    next g1 er v heq =>
      have ha := iha h
      rw [heq] at ha
      exact ha
    next g1 v1 heq =>
      have ha := iha h
      rw [heq] at ha
      split
      next g2 er v heq2 =>
        have hb := ihb ha.1
        rw [heq2] at hb
        exact ⟨hb.1, sameLogs_trans ha.2 hb.2⟩
      next g2 v2 heq2 =>
        have hb := ihb ha.1
        rw [heq2] at hb
        exact ⟨hb.1, sameLogs_trans ha.2 hb.2⟩
  | mul a b iha ihb =>
    rw [evalExp]
    split
    next g1 er v heq =>
      have ha := iha h
      rw [heq] at ha
      exact ha
    next g1 v1 heq =>
      have ha := iha h
      rw [heq] at ha
      split
      next g2 er v heq2 =>
        have hb := ihb ha.1
        rw [heq2] at hb
        exact ⟨hb.1, sameLogs_trans ha.2 hb.2⟩
      next g2 v2 heq2 =>
        have hb := ihb ha.1
        rw [heq2] at hb
        exact ⟨hb.1, sameLogs_trans ha.2 hb.2⟩

theorem count_append_singleton (l : List Nat) (a b : Nat) :
    (l ++ [a]).count b = l.count b + (if b = a then 1 else 0) := by
  by_cases h : b = a <;> simp [List.count_append, h]

theorem ntrig_append_snap {g g' : ReactiveGraph} {s : Nat} {subs : List Nat}
    (h : g'.trigLog = g.trigLog ++ [(s, subs)]) (e : Nat) :
    ntrig g' e = ntrig g e + (if e ∈ subs then 1 else 0) := by
  unfold ntrig
  rw [h, List.filter_append, List.length_append]
  by_cases hm : e ∈ subs <;> simp [hm]

theorem isRegistered_persists {g g' : ReactiveGraph} (h : Extends g g') {e : Nat}
    (he : isRegistered g e = true) : isRegistered g' e = true := by
  unfold isRegistered at *
  cases hx : alookup g.subscribers e with
  | none => rw [hx] at he; exact absurd he (by simp)
  | some cl => rw [registered_persists h hx]; rfl

theorem untrack_subscribers (g : ReactiveGraph) (s : Nat) :
    (untrack g s).subscribers = g.subscribers := by
  unfold untrack
  cases alookup g.storage s <;> rfl

theorem count_nodup {l : List Nat} (h : l.Nodup) (a : Nat) :
    l.count a = if a ∈ l then 1 else 0 := by
  by_cases hm : a ∈ l
  · rw [if_pos hm]
    exact List.count_eq_one_of_mem h hm
  · rw [if_neg hm]
    exact List.count_eq_zero_of_not_mem hm

theorem count_cons_nat (a b : Nat) (l : List Nat) :
    (a :: l).count b = l.count b + (if b = a then 1 else 0) := by
  by_cases h : b = a <;> simp [List.count_cons, h]

/-- Unfolding of `run_effect` when the subscriber entry is present. -/
theorem run_effect_found (f : Nat) (g : ReactiveGraph) (e : Nat) (body : Cmd)
    (env : List Nat) (hcl : alookup g.subscribers e = some (body, env)) :
    run_effect (f + 1) g e =
      match runCmd f env { g with
          current := some e
          runLog := g.runLog ++ [e]
          stack := e :: g.stack
          reentered := g.reentered || g.stack.contains e
          acc := aset g.acc e [] } body with
      | (g3, some er) => (g3, some er)
      | (g3, none) =>
        ({ g3 with
           current := g.current
           stack := g.stack
           lastReads := aset g3.lastReads e (accOf g3 e)
           acc := aset g3.acc e [] }, none) := by
  rw [run_effect]
  dsimp only
  rw [hcl]

/-- Unfolding of `notify_subscribers` when the signal is present. -/
theorem notify_found (f : Nat) (g : ReactiveGraph) (s : Nat) (v : StoredValue)
    (hx : alookup g.storage s = some v) :
    notify_subscribers (f + 1) g s =
      run_list f
        { untrack g s with
          trigLog := (untrack g s).trigLog ++ [(s, v.subscribers)] }
        v.subscribers := by
  rw [notify_subscribers, get_subscribers, hx]
  rfl

/-- Accounting of effect runs, carried through the whole interpreter:
every completed operation preserves `WF5` and changes each effect's run
count by exactly its creation count plus its triggering-write count;
`run_list` and `run_effect` additionally carry the runs their caller
accounts for in `trigLog` or `createdLog`. -/
theorem balance_all (f : Nat) :
    (∀ env g c g', WF5 g → runCmd f env g c = (g', none) →
      WF5 g' ∧ RunBalance g g') ∧
    (∀ g s g', WF5 g → notify_subscribers f g s = (g', none) →
      WF5 g' ∧ RunBalance g g') ∧
    (∀ g l g', WF5 g → (∀ e ∈ l, isRegistered g e = true) → l.Nodup →
      run_list f g l = (g', none) →
      WF5 g' ∧ ∀ x, nruns g' x + ncreated g x + ntrig g x
        = nruns g x + ncreated g' x + ntrig g' x + l.count x) ∧
    (∀ g e g', WF5 g → isRegistered g e = true → run_effect f g e = (g', none) →
      WF5 g' ∧ ∀ x, nruns g' x + ncreated g x + ntrig g x
        = nruns g x + ncreated g' x + ntrig g' x + (if x = e then 1 else 0)) ∧
    (∀ g cl g', WF5 g → create_effect f g cl = (g', none) →
      WF5 g' ∧ RunBalance g g') := by
  induction f with
  | zero =>
    refine ⟨?_, ?_, ?_, ?_, ?_⟩
    · intro env g c g' hw h
      rw [runCmd] at h
      injection h with h1 h2
      exact Option.noConfusion h2
    · intro g s g' hw h
      rw [notify_subscribers] at h
      injection h with h1 h2
      exact Option.noConfusion h2
    · intro g l g' hw hr hn h
      rw [run_list] at h
      injection h with h1 h2
      exact Option.noConfusion h2
    · intro g e g' hw hr h
      rw [run_effect] at h
      injection h with h1 h2
      exact Option.noConfusion h2
    · intro g cl g' hw h
      rw [create_effect] at h
      injection h with h1 h2
      exact Option.noConfusion h2
  | succ f ih =>
    obtain ⟨ihC, ihN, ihL, ihE, ihX⟩ := ih
    have hCre : ∀ g cl g', WF5 g → create_effect (f + 1) g cl = (g', none) →
        WF5 g' ∧ RunBalance g g' := by
      intro g cl g' hw h
      rw [create_effect] at h
      have hfresh : alookup g.subscribers g.nextEff = none :=
        alookup_none_of_keys_lt _ _ hw.1
      have hwG1 : WF5 { g with
          subscribers := g.subscribers ++ [(g.nextEff, cl)]
          nextEff := g.nextEff + 1
          createdLog := g.createdLog ++ [g.nextEff] } := by
        obtain ⟨h1, h2, h3, h4, h5⟩ := hw
        refine ⟨?_, ?_, ?_, ?_, ?_⟩
        · intro p hp
          rcases List.mem_append.mp hp with hp | hp
          · exact Nat.lt_succ_of_lt (h1 p hp)
          · simp at hp
            simp [hp]
        · intro s v hv
          obtain ⟨hnd, hmem⟩ := h2 s v hv
          refine ⟨hnd, ?_⟩
          intro x hx
          have := hmem x hx
          unfold isRegistered at this ⊢
          dsimp only
          cases hl : alookup g.subscribers x with
          | none => rw [hl] at this; exact absurd this (by simp)
          | some c => rw [alookup_append_some _ _ _ _ hl]; rfl
        · intro x hx
          have := h3 x hx
          unfold isRegistered at this ⊢
          dsimp only
          cases hl : alookup g.subscribers x with
          | none => rw [hl] at this; exact absurd this (by simp)
          | some c => rw [alookup_append_some _ _ _ _ hl]; rfl
        · intro x hx
          rcases List.mem_append.mp hx with hx | hx
          · exact Nat.lt_succ_of_lt (h4 x hx)
          · simp at hx
            simp [hx]
        · rw [List.nodup_append]
          refine ⟨h5, List.nodup_singleton _, ?_⟩
          intro x hx hx'
          simp at hx'
          subst hx'
          exact absurd (h4 _ hx) (by simp)
      have hregG1 : isRegistered { g with
          subscribers := g.subscribers ++ [(g.nextEff, cl)]
          nextEff := g.nextEff + 1
          createdLog := g.createdLog ++ [g.nextEff] } g.nextEff = true := by
        unfold isRegistered
        dsimp only
        rw [alookup_append_none _ _ _ hfresh]
        simp [alookup]
      obtain ⟨hw2, hc2⟩ := ihE _ g.nextEff g' hwG1 hregG1 h
      refine ⟨hw2, ?_⟩
      intro x
      have hx := hc2 x
      unfold nruns ncreated ntrig at hx ⊢
      dsimp only at hx ⊢
      rw [count_append_singleton] at hx
      by_cases hxe : x = g.nextEff
      · simp only [if_pos hxe] at hx
        omega
      · simp only [if_neg hxe] at hx
        omega
    have hEff : ∀ g e g', WF5 g → isRegistered g e = true →
        run_effect (f + 1) g e = (g', none) →
        WF5 g' ∧ ∀ x, nruns g' x + ncreated g x + ntrig g x
          = nruns g x + ncreated g' x + ntrig g' x + (if x = e then 1 else 0) := by
      intro g e g' hw hreg h
      obtain ⟨cl, hcl⟩ : ∃ cl, alookup g.subscribers e = some cl := by
        unfold isRegistered at hreg
        cases hx : alookup g.subscribers e with
        | none => rw [hx] at hreg; exact absurd hreg (by simp)
        | some c => exact ⟨c, rfl⟩
      obtain ⟨body, env⟩ := cl
      rw [run_effect_found f g e body env hcl] at h
      have hwG2 : WF5 { g with
          current := some e
          runLog := g.runLog ++ [e]
          stack := e :: g.stack
          reentered := g.reentered || g.stack.contains e
          acc := aset g.acc e [] } := by
        obtain ⟨h1, h2, h3, h4, h5⟩ := hw
        refine ⟨h1, h2, ?_, h4, h5⟩
        intro e1 he1
        injection he1 with he1
        subst he1
        exact hreg
      split at h
      next g3 er heq3 =>
        injection h with h1 h2
        exact Option.noConfusion h2
      next g3 heq3 =>
        injection h with h1 h2
        subst h1
        obtain ⟨hw3, hb3⟩ := ihC env { g with
            current := some e
            runLog := g.runLog ++ [e]
            stack := e :: g.stack
            reentered := g.reentered || g.stack.contains e
            acc := aset g.acc e [] } body g3 hwG2 heq3
        have hext : Extends g g3 := by
          have h0 : Extends g { g with
              current := some e
              runLog := g.runLog ++ [e]
              stack := e :: g.stack
              reentered := g.reentered || g.stack.contains e
              acc := aset g.acc e [] } :=
            ⟨⟨[], by simp⟩, ⟨[e], rfl⟩, le_refl _, le_refl _, fun x hx => hx⟩
          have h1 := (extends_all f).1 env { g with
              current := some e
              runLog := g.runLog ++ [e]
              stack := e :: g.stack
              reentered := g.reentered || g.stack.contains e
              acc := aset g.acc e [] } body
          rw [heq3] at h1
          exact extends_trans h0 h1
        constructor
        · obtain ⟨h1, h2, h3, h4, h5⟩ := hw3
          refine ⟨h1, h2, ?_, h4, h5⟩
          intro e1 he1
          have := hw.2.2.1 e1 he1
          exact isRegistered_persists hext this
        · intro x
          have hbx := hb3 x
          unfold nruns ncreated ntrig at hbx ⊢
          dsimp only at hbx ⊢
          rw [count_append_singleton] at hbx
          by_cases hxe : x = e
          · simp only [if_pos hxe] at hbx ⊢
            omega
          · simp only [if_neg hxe] at hbx ⊢
            omega
    have hLst : ∀ g l g', WF5 g → (∀ e ∈ l, isRegistered g e = true) → l.Nodup →
        run_list (f + 1) g l = (g', none) →
        WF5 g' ∧ ∀ x, nruns g' x + ncreated g x + ntrig g x
          = nruns g x + ncreated g' x + ntrig g' x + l.count x := by
      intro g l g' hw hreg hnd h
      cases l with
      | nil =>
        rw [run_list] at h
        injection h with h1 h2
        subst h1
        exact ⟨hw, fun x => by simp [List.count_nil]⟩
      | cons e es =>
        rw [run_list] at h
        obtain ⟨g1, h1, h2⟩ := andThen_eq_ok h
        obtain ⟨hw1, hc1⟩ := ihE g e g1 hw (hreg e (by simp)) h1
        have hext : Extends g g1 := by
          have hx := (extends_all f).2.2.2.1 g e
          rw [h1] at hx
          exact hx
        have hreg1 : ∀ x ∈ es, isRegistered g1 x = true := fun x hx =>
          isRegistered_persists hext (hreg x (List.mem_cons_of_mem _ hx))
        obtain ⟨hw2, hc2⟩ := ihL g1 es g' hw1 hreg1 (List.nodup_cons.mp hnd).2 h2
        refine ⟨hw2, ?_⟩
        intro x
        have a1 := hc1 x
        have a2 := hc2 x
        rw [count_cons_nat]
        by_cases hxe : x = e
        · simp only [if_pos hxe] at a1 ⊢
          omega
        · simp only [if_neg hxe] at a1 ⊢
          omega
    have hNtf : ∀ g s g', WF5 g → notify_subscribers (f + 1) g s = (g', none) →
        WF5 g' ∧ RunBalance g g' := by
      intro g s g' hw h
      cases hx : alookup g.storage s with
      | none =>
        rw [notify_absent f g s hx] at h
        injection h with h1 h2
        subst h1
        exact ⟨hw, runBalance_refl g⟩
      | some v =>
        rw [notify_found f g s v hx] at h
        obtain ⟨hnd, hregv⟩ := hw.2.1 s v hx
        have hu := untrack_wf5 s hw
        have hwG2 : WF5 { untrack g s with
            trigLog := (untrack g s).trigLog ++ [(s, v.subscribers)] } := hu.1
        have hregG2 : ∀ x ∈ v.subscribers, isRegistered { untrack g s with
            trigLog := (untrack g s).trigLog ++ [(s, v.subscribers)] } x = true := by
          intro x hxm
          have := hregv x hxm
          unfold isRegistered at this ⊢
          dsimp only
          rw [untrack_subscribers]
          exact this
        obtain ⟨hw2, hc2⟩ := ihL _ v.subscribers g' hwG2 hregG2 hnd h
        refine ⟨hw2, ?_⟩
        intro x
        have a2 := hc2 x
        have hcnt : v.subscribers.count x = if x ∈ v.subscribers then 1 else 0 :=
          count_nodup hnd x
        have t2 : ntrig { untrack g s with
            trigLog := (untrack g s).trigLog ++ [(s, v.subscribers)] } x
            = ntrig (untrack g s) x + (if x ∈ v.subscribers then 1 else 0) :=
          ntrig_append_snap rfl x
        have t2b : ntrig (untrack g s) x = ntrig g x := by
          unfold ntrig
          rw [hu.2.2.2]
        have r2 : nruns { untrack g s with
            trigLog := (untrack g s).trigLog ++ [(s, v.subscribers)] } x = nruns g x := by
          unfold nruns
          dsimp only
          rw [hu.2.1]
        have c2e : ncreated { untrack g s with
            trigLog := (untrack g s).trigLog ++ [(s, v.subscribers)] } x = ncreated g x := by
          unfold ncreated
          dsimp only
          rw [hu.2.2.1]
        rw [t2, t2b, r2, c2e, hcnt] at a2
        by_cases hxm : x ∈ v.subscribers
        · simp only [if_pos hxm] at a2
          omega
        · simp only [if_neg hxm] at a2
          omega
    have hCmd : ∀ env g c g', WF5 g → runCmd (f + 1) env g c = (g', none) →
        WF5 g' ∧ RunBalance g g' := by
      intro env g c g' hw h
      cases c with
      | skip =>
        rw [runCmd] at h
        injection h with h1 h2
        subst h1
        exact ⟨hw, runBalance_refl g⟩
      | seq a b =>
        rw [runCmd] at h
        obtain ⟨g1, ha, hb⟩ := andThen_eq_ok h
        obtain ⟨hw1, hb1⟩ := ihC env g a g1 hw ha
        obtain ⟨hw2, hb2⟩ := ihC env g1 b g' hw1 hb
        exact ⟨hw2, runBalance_trans hb1 hb2⟩
      | ite cnd a b =>
        rw [runCmd] at h
        split at h
        next g1 er v heq =>
          injection h with h1 h2
          exact Option.noConfusion h2
        next g1 v heq =>
          have he := @evalExp_wf5 env g cnd hw
          rw [heq] at he
          by_cases hv : v ≠ 0
          · rw [if_pos hv] at h
            obtain ⟨hw2, hb2⟩ := ihC env g1 a g' he.1 h
            exact ⟨hw2, runBalance_trans (RunBalance.of_sameLogs he.2) hb2⟩
          · rw [if_neg hv] at h
            obtain ⟨hw2, hb2⟩ := ihC env g1 b g' he.1 h
            exact ⟨hw2, runBalance_trans (RunBalance.of_sameLogs he.2) hb2⟩
      | write r e =>
        rw [runCmd] at h
        split at h
        next g1 er v heq =>
          injection h with h1 h2
          exact Option.noConfusion h2
        next g1 v heq =>
          have he := @evalExp_wf5 env g e hw
          rw [heq] at he
          obtain ⟨g2, hsv, hnt⟩ := andThen_eq_ok h
          have hsw := setValue_wf5 (resolveRef env r) v he.1
          rw [hsv] at hsw
          obtain ⟨hw3, hb3⟩ := ihN g2 (resolveRef env r) g' hsw.1 hnt
          exact ⟨hw3, runBalance_trans (RunBalance.of_sameLogs he.2)
            (runBalance_trans (RunBalance.of_sameLogs hsw.2) hb3)⟩
      | setExt e =>
        rw [runCmd] at h
        split at h
        next g1 er v heq =>
          injection h with h1 h2
          exact Option.noConfusion h2
        next g1 v heq =>
          injection h with h1 h2
          subst h1
          have he := @evalExp_wf5 env g e hw
          rw [heq] at he
          exact ⟨he.1, RunBalance.of_sameLogs he.2⟩
      | letSignal init k =>
        rw [runCmd] at h
        have hw1 : WF5 { g with
            storage := g.storage ++ [(g.nextSig, ⟨init, []⟩)]
            nextSig := g.nextSig + 1 } := by
          obtain ⟨h1, h2, h3, h4, h5⟩ := hw
          refine ⟨h1, ?_, h3, h4, h5⟩
          intro s v hv
          dsimp only at hv
          rcases alookup_append_cases hv with hold | ⟨_, hnew⟩
          · exact h2 s v hold
          · rw [alookup] at hnew
            by_cases hs : g.nextSig = s
            · rw [if_pos hs] at hnew
              injection hnew with hnew
              subst hnew
              exact ⟨List.nodup_nil, by simp⟩
            · rw [if_neg hs] at hnew
              rw [alookup] at hnew
              exact Option.noConfusion hnew
        obtain ⟨hw2, hb2⟩ := ihC _ _ k g' hw1 h
        exact ⟨hw2, runBalance_trans (RunBalance.of_sameLogs ⟨rfl, rfl, rfl⟩) hb2⟩
      | mkEffect body =>
        rw [runCmd] at h
        exact ihX g (body, env) g' hw h
    exact ⟨hCmd, hNtf, hLst, hEff, hCre⟩

theorem create_signal_wf5 {g : ReactiveGraph} (init : Nat) (h : WF5 g) :
    WF5 (create_signal g init) ∧ SameLogs g (create_signal g init) := by
  obtain ⟨h1, h2, h3, h4, h5⟩ := h
  refine ⟨⟨h1, ?_, h3, h4, h5⟩, ⟨rfl, rfl, rfl⟩⟩
  intro s v hv
  unfold create_signal at hv
  dsimp only at hv
  rcases alookup_append_cases hv with hold | ⟨_, hnew⟩
  · exact h2 s v hold
  · rw [alookup] at hnew
    by_cases hs : g.nextSig = s
    · rw [if_pos hs] at hnew
      injection hnew with hnew
      subst hnew
      exact ⟨List.nodup_nil, by simp⟩
    · rw [if_neg hs] at hnew
      rw [alookup] at hnew
      exact Option.noConfusion hnew

theorem dispose_wf5 {g : ReactiveGraph} (s : Nat) (h : WF5 g) :
    WF5 (dispose g s) ∧ SameLogs g (dispose g s) := by
  obtain ⟨h1, h2, h3, h4, h5⟩ := h
  refine ⟨⟨h1, ?_, h3, h4, h5⟩, ⟨rfl, rfl, rfl⟩⟩
  intro s' v hv
  unfold dispose at hv
  dsimp only at hv
  by_cases hs : s' = s
  · subst hs
    rw [alookup_aremove_self] at hv
    exact Option.noConfusion hv
  · rw [alookup_aremove_ne _ _ _ hs] at hv
    exact h2 s' v hv

theorem runOp_balance (f : Nat) (g : ReactiveGraph) (op : Op) (g' : ReactiveGraph)
    (hw : WF5 g) (h : runOp f g op = (g', none)) : WF5 g' ∧ RunBalance g g' := by
  cases op with
  | newSignal init =>
    rw [runOp] at h
    injection h with h1 h2
    subst h1
    exact ⟨(create_signal_wf5 init hw).1,
           RunBalance.of_sameLogs (create_signal_wf5 init hw).2⟩
  | newEffect body =>
    rw [runOp] at h
    exact (balance_all f).2.2.2.2 g (body, []) g' hw h
  | write s v =>
    rw [runOp] at h
    rw [writeSignal] at h
    obtain ⟨g1, hsv, hnt⟩ := andThen_eq_ok h
    have hs := setValue_wf5 s v hw
    rw [hsv] at hs
    obtain ⟨hw2, hb2⟩ := (balance_all f).2.1 g1 s g' hs.1 hnt
    exact ⟨hw2, runBalance_trans (RunBalance.of_sameLogs hs.2) hb2⟩
  | disposeSig s =>
    rw [runOp] at h
    injection h with h1 h2
    subst h1
    exact ⟨(dispose_wf5 s hw).1, RunBalance.of_sameLogs (dispose_wf5 s hw).2⟩
  | readTop s =>
    rw [runOp] at h
    have hr := readSignal_wf5 s hw
    cases hx : readSignal g s with
    | mk g1 er val =>
      rw [hx] at h hr
      injection h with h1 h2
      subst h1
      exact ⟨hr.1, RunBalance.of_sameLogs hr.2⟩

theorem runOps_balance (f : Nat) (ops : List Op) (g g' : ReactiveGraph)
    (hw : WF5 g) (h : runOps f g ops = (g', none)) : WF5 g' ∧ RunBalance g g' := by
  induction ops generalizing g with
  | nil =>
    rw [runOps] at h
    injection h with h1 h2
    subst h1
    exact ⟨hw, runBalance_refl g⟩
  | cons op ops ih =>
    rw [runOps] at h
    obtain ⟨g1, h1, h2⟩ := andThen_eq_ok h
    obtain ⟨hw1, hb1⟩ := runOp_balance f g op g1 hw h1
    obtain ⟨hw2, hb2⟩ := ih g1 hw1 h2
    exact ⟨hw2, runBalance_trans hb1 hb2⟩

theorem wf5_empty : WF5 ReactiveGraph.empty := by
  refine ⟨?_, ?_, ?_, ?_, ?_⟩
  · intro p hp
    simp [ReactiveGraph.empty] at hp
  · intro s v hv
    rw [show ReactiveGraph.empty.storage = [] from rfl, alookup] at hv
    exact Option.noConfusion hv
  · intro e he
    rw [show ReactiveGraph.empty.current = none from rfl] at he
    exact Option.noConfusion he
  · intro x hx
    simp [ReactiveGraph.empty] at hx
  · exact List.nodup_nil

/-- C5: for every completed operation sequence starting from the empty
graph, every created effect's closure ran exactly 1 time (the eager run
at creation) plus once per write whose notified signal had the effect
in its subscriber set at the moment of the write — counted per write,
with no batching and no deduplication. -/
theorem C5_run_count (f : Nat) (ops : List Op) (g' : ReactiveGraph)
    (h : runOps f ReactiveGraph.empty ops = (g', none)) (e : Nat)
    (he : e ∈ g'.createdLog) :
    nruns g' e = 1 + ntrig g' e := by
  obtain ⟨hw, hb⟩ := runOps_balance f ops ReactiveGraph.empty g' wf5_empty h
  have hbe := hb e
  have h1 : ncreated g' e = 1 := by
    unfold ncreated
    exact List.count_eq_one_of_mem hw.2.2.2.2 he
  have h0r : nruns ReactiveGraph.empty e = 0 := rfl
  have h0c : ncreated ReactiveGraph.empty e = 0 := rfl
  have h0t : ntrig ReactiveGraph.empty e = 0 := rfl
  omega

theorem C5_witness :
    runOps 24 ReactiveGraph.empty
      [Op.newSignal 0, Op.newSignal 10, Op.newSignal 0, Op.newEffect effBody,
       Op.write 1 20, Op.write 2 1, Op.write 0 1, Op.write 0 0,
       Op.write 2 2, Op.write 2 3, Op.write 2 4, Op.write 0 1] = (gE12, none) ∧
    0 ∈ gE12.createdLog ∧
    nruns gE12 0 = 1 + ntrig gE12 0 :=
  ⟨effReach12, by decide, C5_run_count 24 _ gE12 effReach12 0 (by decide)⟩

/-! ## Machinery for the subscriber-set invariant (C1) -/

/-- The fields not touched by a tracked read or a value replacement. -/
def SameCore (g g' : ReactiveGraph) : Prop :=
  g'.subscribers = g.subscribers ∧ g'.nextEff = g.nextEff ∧ g'.current = g.current ∧
  g'.stack = g.stack ∧ g'.reentered = g.reentered ∧ g'.lastReads = g.lastReads

theorem sameCore_refl (g : ReactiveGraph) : SameCore g g := ⟨rfl, rfl, rfl, rfl, rfl, rfl⟩

theorem sameCore_trans {g1 g2 g3 : ReactiveGraph}
    (h1 : SameCore g1 g2) (h2 : SameCore g2 g3) : SameCore g1 g3 :=
  ⟨h2.1.trans h1.1, h2.2.1.trans h1.2.1, h2.2.2.1.trans h1.2.2.1,
   h2.2.2.2.1.trans h1.2.2.2.1, h2.2.2.2.2.1.trans h1.2.2.2.2.1,
   h2.2.2.2.2.2.trans h1.2.2.2.2.2⟩

theorem track_sameCore (g : ReactiveGraph) (s : Nat) : SameCore g (track g s) := by
  unfold track
  cases hx : alookup g.storage s with
  | none => exact sameCore_refl g
  | some v =>
    cases hc : g.current with
    | none => exact sameCore_refl g
    | some e =>
      dsimp only
      exact ⟨rfl, rfl, hc.symm, rfl, rfl, rfl⟩

theorem untrack_sameCore (g : ReactiveGraph) (s : Nat) : SameCore g (untrack g s) := by
  unfold untrack
  cases alookup g.storage s with
  | none => exact sameCore_refl g
  | some v =>
    dsimp only
    refine ⟨?_, ?_, ?_, ?_, ?_, ?_⟩ <;> rfl

theorem setValue_sameCore (g : ReactiveGraph) (s v : Nat) :
    SameCore g (setValue g s v).1 := by
  unfold setValue
  cases alookup g.storage s with
  | none => exact sameCore_refl g
  | some old =>
    dsimp only
    refine ⟨?_, ?_, ?_, ?_, ?_, ?_⟩ <;> rfl

theorem readSignal_sameCore (g : ReactiveGraph) (s : Nat) :
    SameCore g (readSignal g s).g := by
  unfold readSignal
  dsimp only
  split
  · exact track_sameCore g s
  · exact track_sameCore g s

theorem evalExp_sameCore (env : List Nat) (g : ReactiveGraph) (x : Exp) :
    SameCore g (evalExp env g x).g := by
  induction x generalizing g with
  | lit n => exact sameCore_refl g
  | read r => exact readSignal_sameCore g (resolveRef env r)
  | add a b iha ihb =>
    rw [evalExp]
    split
    next g1 er v heq =>
      have ha := iha g
      rw [heq] at ha
      exact ha
    next g1 v1 heq =>
      have ha := iha g
      rw [heq] at ha
      split
      next g2 er v heq2 =>
        have hb := ihb g1
        rw [heq2] at hb
        exact sameCore_trans ha hb
      next g2 v2 heq2 =>
        have hb := ihb g1
        rw [heq2] at hb
        exact sameCore_trans ha hb
  | mul a b iha ihb =>
    rw [evalExp]
    split
    next g1 er v heq =>
      have ha := iha g
      rw [heq] at ha
      exact ha
    next g1 v1 heq =>
      have ha := iha g
      rw [heq] at ha
      split
      next g2 er v heq2 =>
        have hb := ihb g1
        rw [heq2] at hb
        exact sameCore_trans ha hb
      next g2 v2 heq2 =>
        have hb := ihb g1
        rw [heq2] at hb
        exact sameCore_trans ha hb

/-- Unfolding of `track` when the signal is live and an effect runs. -/
theorem track_found {g : ReactiveGraph} {s : Nat} {v : StoredValue} {e : Nat}
    (hx : alookup g.storage s = some v) (hc : g.current = some e) :
    track g s = { g with
      storage := aset g.storage s (add_subscriber v e)
      acc := aset g.acc e (if s ∈ accOf g e then accOf g e else accOf g e ++ [s]) } := by
  unfold track
  rw [hx, hc]

/-- Unfolding of `untrack` when the signal is live. -/
theorem untrack_found {g : ReactiveGraph} {s : Nat} {v : StoredValue}
    (hx : alookup g.storage s = some v) :
    untrack g s = { g with storage := aset g.storage s { v with subscribers := [] } } := by
  unfold untrack
  rw [hx]

/-- On normal completion every interpreter operation restores the
execution context and the running stack. -/
theorem frame_all (f : Nat) :
    (∀ env g c g', runCmd f env g c = (g', none) →
      g'.current = g.current ∧ g'.stack = g.stack) ∧
    (∀ g s g', notify_subscribers f g s = (g', none) →
      g'.current = g.current ∧ g'.stack = g.stack) ∧
    (∀ g l g', run_list f g l = (g', none) →
      g'.current = g.current ∧ g'.stack = g.stack) ∧
    (∀ g e g', run_effect f g e = (g', none) →
      g'.current = g.current ∧ g'.stack = g.stack) ∧
    (∀ g cl g', create_effect f g cl = (g', none) →
      g'.current = g.current ∧ g'.stack = g.stack) := by
  induction f with
  | zero =>
    refine ⟨?_, ?_, ?_, ?_, ?_⟩
    · intro env g c g' h
      rw [runCmd] at h
      injection h with h1 h2
      exact Option.noConfusion h2
    · intro g s g' h
      rw [notify_subscribers] at h
      injection h with h1 h2
      exact Option.noConfusion h2
    · intro g l g' h
      rw [run_list] at h
      injection h with h1 h2
      exact Option.noConfusion h2
    · intro g e g' h
      rw [run_effect] at h
      injection h with h1 h2
      exact Option.noConfusion h2
    · intro g cl g' h
      rw [create_effect] at h
      injection h with h1 h2
      exact Option.noConfusion h2
  | succ f ih =>
    obtain ⟨ihC, ihN, ihL, ihE, ihX⟩ := ih
    have hEff : ∀ g e g', run_effect (f + 1) g e = (g', none) →
        g'.current = g.current ∧ g'.stack = g.stack := by
      intro g e g' h
      rw [run_effect] at h
      split at h
      · injection h with h1 h2
        subst h1
        exact ⟨rfl, rfl⟩
      next body env heq =>
        dsimp only at h
        split at h
        next g3 er heq2 =>
          injection h with h1 h2
          exact Option.noConfusion h2
        next g3 heq2 =>
          injection h with h1 h2
          subst h1
          exact ⟨rfl, rfl⟩
    have hCre : ∀ g cl g', create_effect (f + 1) g cl = (g', none) →
        g'.current = g.current ∧ g'.stack = g.stack := by
      intro g cl g' h
      rw [create_effect] at h
      obtain ⟨c1, s1⟩ := ihE { g with
          subscribers := g.subscribers ++ [(g.nextEff, cl)]
          nextEff := g.nextEff + 1
          createdLog := g.createdLog ++ [g.nextEff] } g.nextEff g' h
      exact ⟨c1, s1⟩
    have hLst : ∀ g l g', run_list (f + 1) g l = (g', none) →
        g'.current = g.current ∧ g'.stack = g.stack := by
      intro g l g' h
      cases l with
      | nil =>
        rw [run_list] at h
        injection h with h1 h2
        subst h1
        exact ⟨rfl, rfl⟩
      | cons e es =>
        rw [run_list] at h
        obtain ⟨g1, h1, h2⟩ := andThen_eq_ok h
        obtain ⟨c1, s1⟩ := ihE g e g1 h1
        obtain ⟨c2, s2⟩ := ihL g1 es g' h2
        exact ⟨c2.trans c1, s2.trans s1⟩
    have hNtf : ∀ g s g', notify_subscribers (f + 1) g s = (g', none) →
        g'.current = g.current ∧ g'.stack = g.stack := by
      intro g s g' h
      cases hx : alookup g.storage s with
      | none =>
        rw [notify_absent f g s hx] at h
        injection h with h1 h2
        subst h1
        exact ⟨rfl, rfl⟩
      | some v =>
        rw [notify_found f g s v hx] at h
        obtain ⟨c1, s1⟩ := ihL _ v.subscribers g' h
        have hu := untrack_sameCore g s
        exact ⟨c1.trans hu.2.2.1, s1.trans hu.2.2.2.1⟩
    have hCmd : ∀ env g c g', runCmd (f + 1) env g c = (g', none) →
        g'.current = g.current ∧ g'.stack = g.stack := by
      intro env g c g' h
      cases c with
      | skip =>
        rw [runCmd] at h
        injection h with h1 h2
        subst h1
        exact ⟨rfl, rfl⟩
      | seq a b =>
        rw [runCmd] at h
        obtain ⟨g1, ha, hb⟩ := andThen_eq_ok h
        obtain ⟨c1, s1⟩ := ihC env g a g1 ha
        obtain ⟨c2, s2⟩ := ihC env g1 b g' hb
        exact ⟨c2.trans c1, s2.trans s1⟩
      | ite cnd a b =>
        rw [runCmd] at h
        split at h
        next g1 er v heq =>
          injection h with h1 h2
          exact Option.noConfusion h2
        next g1 v heq =>
          have he := evalExp_sameCore env g cnd
          rw [heq] at he
          by_cases hv : v ≠ 0
          · rw [if_pos hv] at h
            obtain ⟨c2, s2⟩ := ihC env g1 a g' h
            exact ⟨c2.trans he.2.2.1, s2.trans he.2.2.2.1⟩
          · rw [if_neg hv] at h
            obtain ⟨c2, s2⟩ := ihC env g1 b g' h
            exact ⟨c2.trans he.2.2.1, s2.trans he.2.2.2.1⟩
      | write r e =>
        rw [runCmd] at h
        split at h
        next g1 er v heq =>
          injection h with h1 h2
          exact Option.noConfusion h2
        next g1 v heq =>
          have he := evalExp_sameCore env g e
          rw [heq] at he
          obtain ⟨g2, hsv, hnt⟩ := andThen_eq_ok h
          have hs := setValue_sameCore g1 (resolveRef env r) v
          rw [hsv] at hs
          obtain ⟨c3, s3⟩ := ihN g2 (resolveRef env r) g' hnt
          exact ⟨(c3.trans hs.2.2.1).trans he.2.2.1,
                 (s3.trans hs.2.2.2.1).trans he.2.2.2.1⟩
      | setExt e =>
        rw [runCmd] at h
        split at h
        next g1 er v heq =>
          injection h with h1 h2
          exact Option.noConfusion h2
        next g1 v heq =>
          injection h with h1 h2
          subst h1
          have he := evalExp_sameCore env g e
          rw [heq] at he
          exact ⟨he.2.2.1, he.2.2.2.1⟩
      | letSignal init k =>
        rw [runCmd] at h
        obtain ⟨c2, s2⟩ := ihC _ _ k g' h
        exact ⟨c2, s2⟩
      | mkEffect body =>
        rw [runCmd] at h
        exact ihX g (body, env) g' h
    exact ⟨hCmd, hNtf, hLst, hEff, hCre⟩

theorem reent_andThen {g : ReactiveGraph} {o : Out} {k : ReactiveGraph → Out}
    (h1 : g.reentered = true → o.1.reentered = true)
    (h2 : ∀ g1, g1.reentered = true → (k g1).1.reentered = true)
    (hg : g.reentered = true) : (andThen o k).1.reentered = true := by
  obtain ⟨g1, r⟩ := o
  cases r with
  | none => exact h2 g1 (h1 hg)
  | some er => exact h1 hg

/-- The re-entry flag is never cleared: once set it survives every
operation, completed or failed. -/
theorem reent_mono (f : Nat) :
    (∀ env g c, g.reentered = true → ((runCmd f env g c).1).reentered = true) ∧
    (∀ g s, g.reentered = true → ((notify_subscribers f g s).1).reentered = true) ∧
    (∀ g l, g.reentered = true → ((run_list f g l).1).reentered = true) ∧
    (∀ g e, g.reentered = true → ((run_effect f g e).1).reentered = true) ∧
    (∀ g cl, g.reentered = true → ((create_effect f g cl).1).reentered = true) := by
  induction f with
  | zero =>
    exact ⟨fun env g c h => h, fun g s h => h, fun g l h => h,
           fun g e h => h, fun g cl h => h⟩
  | succ f ih =>
    obtain ⟨ihC, ihN, ihL, ihE, ihX⟩ := ih
    have hEff : ∀ g e, g.reentered = true →
        ((run_effect (f + 1) g e).1).reentered = true := by
      intro g e hg
      rw [run_effect]
      split
      · exact hg
      next body env heq =>
        dsimp only
        have h2 : ({ g with
            current := some e
            runLog := g.runLog ++ [e]
            stack := e :: g.stack
            reentered := g.reentered || g.stack.contains e
            acc := aset g.acc e [] } : ReactiveGraph).reentered = true := by
          dsimp only
          rw [hg]
          rfl
        have h3 := ihC env { g with
            current := some e
            runLog := g.runLog ++ [e]
            stack := e :: g.stack
            reentered := g.reentered || g.stack.contains e
            acc := aset g.acc e [] } body h2
        split
        next g3 er heq2 =>
          rw [heq2] at h3
          exact h3
        next g3 heq2 =>
          rw [heq2] at h3
          exact h3
    have hCre : ∀ g cl, g.reentered = true →
        ((create_effect (f + 1) g cl).1).reentered = true := by
      intro g cl hg
      rw [create_effect]
      exact ihE _ g.nextEff hg
    have hLst : ∀ g l, g.reentered = true →
        ((run_list (f + 1) g l).1).reentered = true := by
      intro g l hg
      cases l with
      | nil => exact hg
      | cons e es =>
        rw [run_list]
        exact reent_andThen (ihE g e) (fun g1 => ihL g1 es) hg
    have hNtf : ∀ g s, g.reentered = true →
        ((notify_subscribers (f + 1) g s).1).reentered = true := by
      intro g s hg
      cases hx : alookup g.storage s with
      | none =>
        rw [notify_absent f g s hx]
        exact hg
      | some v =>
        rw [notify_found f g s v hx]
        have hu := (untrack_sameCore g s).2.2.2.2.1
        exact ihL _ v.subscribers (by rw [show ({ untrack g s with
          trigLog := (untrack g s).trigLog ++ [(s, v.subscribers)] } :
            ReactiveGraph).reentered = (untrack g s).reentered from rfl, hu]; exact hg)
    have hCmd : ∀ env g c, g.reentered = true →
        ((runCmd (f + 1) env g c).1).reentered = true := by
      intro env g c hg
      cases c with
      | skip => exact hg
      | seq a b =>
        rw [runCmd]
        exact reent_andThen (ihC env g a) (fun g1 => ihC env g1 b) hg
      | ite cnd a b =>
        rw [runCmd]
        have he := (evalExp_sameCore env g cnd).2.2.2.2.1
        split
        next g1 er v heq =>
          rw [heq] at he
          rw [he]
          exact hg
        next g1 v heq =>
          rw [heq] at he
          by_cases hv : v ≠ 0
          · rw [if_pos hv]
            exact ihC env g1 a (by rw [he]; exact hg)
          · rw [if_neg hv]
            exact ihC env g1 b (by rw [he]; exact hg)
      | write r e =>
        rw [runCmd]
        have he := (evalExp_sameCore env g e).2.2.2.2.1
        split
        next g1 er v heq =>
          rw [heq] at he
          rw [he]
          exact hg
        next g1 v heq =>
          rw [heq] at he
          have hs := (setValue_sameCore g1 (resolveRef env r) v).2.2.2.2.1
          exact reent_andThen (fun _ => by rw [hs, he]; exact hg)
            (fun g2 => ihN g2 (resolveRef env r)) (by rw [he]; exact hg)
      | setExt e =>
        rw [runCmd]
        have he := (evalExp_sameCore env g e).2.2.2.2.1
        split
        next g1 er v heq =>
          rw [heq] at he
          rw [he]
          exact hg
        next g1 v heq =>
          rw [heq] at he
          show g1.reentered = true
          rw [he]
          exact hg
      | letSignal init k =>
        rw [runCmd]
        exact ihC _ _ k hg
      | mkEffect body =>
        rw [runCmd]
        exact ihX g (body, env) hg
    exact ⟨hCmd, hNtf, hLst, hEff, hCre⟩

/-- Running an effect that is already on the running stack records the
re-entry in the `reentered` flag. -/
theorem run_effect_sets_reent (f : Nat) (g : ReactiveGraph) (e : Nat)
    (g1 : ReactiveGraph) (hstk : e ∈ g.stack) (hreg : isRegistered g e = true)
    (h : run_effect f g e = (g1, none)) : g1.reentered = true := by
  cases f with
  | zero =>
    rw [run_effect] at h
    injection h with h1 h2
    exact Option.noConfusion h2
  | succ f =>
    obtain ⟨cl, hcl⟩ : ∃ cl, alookup g.subscribers e = some cl := by
      unfold isRegistered at hreg
      cases hx : alookup g.subscribers e with
      | none => rw [hx] at hreg; exact absurd hreg (by simp)
      | some c => exact ⟨c, rfl⟩
    obtain ⟨body, env⟩ := cl
    rw [run_effect_found f g e body env hcl] at h
    have h2 : ({ g with
        current := some e
        runLog := g.runLog ++ [e]
        stack := e :: g.stack
        reentered := g.reentered || g.stack.contains e
        acc := aset g.acc e [] } : ReactiveGraph).reentered = true := by
      dsimp only
      have : g.stack.contains e = true := List.elem_eq_true_of_mem hstk
      rw [this]
      simp
    have h3 := (reent_mono f).1 env { g with
        current := some e
        runLog := g.runLog ++ [e]
        stack := e :: g.stack
        reentered := g.reentered || g.stack.contains e
        acc := aset g.acc e [] } body h2
    split at h
    next g3 er heq2 =>
      injection h with ha hb
      exact Option.noConfusion hb
    next g3 heq2 =>
      injection h with ha hb
      subst ha
      rw [heq2] at h3
      exact h3

/-- If a completed `run_list` contains an effect that was already
running (and registered) when the list started, the re-entry flag is set
in the final state. -/
theorem run_list_reenter (f : Nat) : ∀ g l g' e, run_list f g l = (g', none) →
    e ∈ l → e ∈ g.stack → isRegistered g e = true → g'.reentered = true := by
  induction f with
  | zero =>
    intro g l g' e h hm hs hr
    rw [run_list] at h
    injection h with h1 h2
    exact Option.noConfusion h2
  | succ f ih =>
    intro g l g' e h hm hs hr
    cases l with
    | nil => simp at hm
    | cons a es =>
      rw [run_list] at h
      obtain ⟨g1, h1, h2⟩ := andThen_eq_ok h
      rcases List.mem_cons.mp hm with heq | hes
      · subst heq
        have hre := run_effect_sets_reent f g e g1 hs hr h1
        have hmono := (reent_mono f).2.2.1 g1 es hre
        rw [h2] at hmono
        exact hmono
      · have hfr := (frame_all f).2.2.2.1 g a g1 h1
        have hx := (extends_all f).2.2.2.1 g a
        rw [h1] at hx
        exact ih g1 es g' e h2 hes (by rw [hfr.2]; exact hs)
          (isRegistered_persists hx hr)

theorem add_subscriber_superset {v : StoredValue} {e x : Nat}
    (h : x ∈ v.subscribers) : x ∈ (add_subscriber v e).subscribers := by
  unfold add_subscriber
  split
  · exact h
  · exact List.mem_append_left _ h

theorem add_subscriber_self_mem (v : StoredValue) (e : Nat) :
    e ∈ (add_subscriber v e).subscribers := by
  unfold add_subscriber
  split
  next h => exact h
  · simp

theorem subsOf_aset_self {g G : ReactiveGraph} {s : Nat} {w : StoredValue}
    (hst : G.storage = aset g.storage s w) : subsOf G s = w.subscribers := by
  unfold subsOf
  rw [hst, alookup_aset_self]

theorem subsOf_aset_ne {g G : ReactiveGraph} {s s' : Nat} {w : StoredValue}
    (hst : G.storage = aset g.storage s w) (h : s' ≠ s) :
    subsOf G s' = subsOf g s' := by
  unfold subsOf
  rw [hst, alookup_aset_ne _ _ _ _ h]

theorem liveSig_aset_eq {g G : ReactiveGraph} {s : Nat} {w : StoredValue}
    (hst : G.storage = aset g.storage s w) (hlive : liveSig g s = true)
    (s' : Nat) : liveSig G s' = liveSig g s' := by
  unfold liveSig at *
  rw [hst]
  by_cases hs : s' = s
  · subst hs
    rw [alookup_aset_self, hlive]
    rfl
  · rw [alookup_aset_ne _ _ _ _ hs]

/-- The invariant behind the amended C1: besides well-formedness
book-keeping, every signal recorded in a running effect's in-progress
read set, and every signal in an effect's most-recent-run read set, has
that effect in its subscriber set — the latter up to the exception
relation `X`, which notification uses for the snapshotted effects whose
entries it has cleared but not yet re-run. -/
structure InvC1 (g : ReactiveGraph) (X : Nat → Nat → Prop) : Prop where
  storageKeys : ∀ p ∈ g.storage, p.1 < g.nextSig
  regKeys : ∀ p ∈ g.subscribers, p.1 < g.nextEff
  regIff : ∀ e, isRegistered g e = true ↔ e < g.nextEff
  subsReg : ∀ s v, alookup g.storage s = some v →
    ∀ e ∈ v.subscribers, isRegistered g e = true
  curStack : ∀ e, g.current = some e → e ∈ g.stack
  stackReg : ∀ e ∈ g.stack, isRegistered g e = true
  lastBound : ∀ e, ∀ s ∈ lastReadsOf g e, s < g.nextSig
  accBound : ∀ e, ∀ s ∈ accOf g e, s < g.nextSig
  lastFresh : ∀ e, g.nextEff ≤ e → lastReadsOf g e = []
  accFresh : ∀ e, e ∉ g.stack → accOf g e = []
  accSubs : ∀ e s, s ∈ accOf g e → liveSig g s = true → e ∈ subsOf g s
  lastSubs : ∀ e s, s ∈ lastReadsOf g e → liveSig g s = true →
    e ∈ subsOf g s ∨ X s e

theorem InvC1.mono {g : ReactiveGraph} {X Y : Nat → Nat → Prop}
    (h : InvC1 g X) (hxy : ∀ s e, X s e → Y s e) : InvC1 g Y :=
  ⟨h.storageKeys, h.regKeys, h.regIff, h.subsReg, h.curStack, h.stackReg,
   h.lastBound, h.accBound, h.lastFresh, h.accFresh, h.accSubs,
   fun e s hm hl => (h.lastSubs e s hm hl).imp id (hxy s e)⟩

theorem track_inv {g : ReactiveGraph} {X : Nat → Nat → Prop} (s : Nat)
    (h : InvC1 g X) : InvC1 (track g s) X := by
  cases hx : alookup g.storage s with
  | none => rw [track_absent g s hx]; exact h
  | some v =>
    cases hc : g.current with
    | none => rw [track_no_current g s hc]; exact h
    | some e =>
      rw [track_found hx hc]
      have hestk : e ∈ g.stack := h.curStack e hc
      have hereg : isRegistered g e = true := h.stackReg e hestk
      have hsbound : s < g.nextSig := h.storageKeys _ (alookup_mem _ _ _ hx)
      have hslive : liveSig g s = true := by
        unfold liveSig
        rw [hx]
        rfl
      have hlive_eq := @liveSig_aset_eq g { g with
          storage := aset g.storage s (add_subscriber v e)
          acc := aset g.acc e (if s ∈ accOf g e then accOf g e else accOf g e ++ [s]) }
        s (add_subscriber v e) rfl hslive
      have hsubs_self : subsOf { g with
          storage := aset g.storage s (add_subscriber v e)
          acc := aset g.acc e (if s ∈ accOf g e then accOf g e else accOf g e ++ [s]) } s
          = (add_subscriber v e).subscribers := subsOf_aset_self rfl
      have hsubs_ne : ∀ s', s' ≠ s → subsOf { g with
          storage := aset g.storage s (add_subscriber v e)
          acc := aset g.acc e (if s ∈ accOf g e then accOf g e else accOf g e ++ [s]) } s'
          = subsOf g s' := fun s' hs' => subsOf_aset_ne rfl hs'
      have hgrow : ∀ s' x, x ∈ subsOf g s' → x ∈ subsOf { g with
          storage := aset g.storage s (add_subscriber v e)
          acc := aset g.acc e (if s ∈ accOf g e then accOf g e else accOf g e ++ [s]) } s' := by
        intro s' x hm
        by_cases hs' : s' = s
        · subst hs'
          rw [hsubs_self]
          unfold subsOf at hm
          rw [hx] at hm
          exact add_subscriber_superset hm
        · rw [hsubs_ne s' hs']
          exact hm
      have hacc_self : accOf { g with
          storage := aset g.storage s (add_subscriber v e)
          acc := aset g.acc e (if s ∈ accOf g e then accOf g e else accOf g e ++ [s]) } e
          = (if s ∈ accOf g e then accOf g e else accOf g e ++ [s]) := by
        unfold accOf
        dsimp only
        rw [alookup_aset_self]
        rfl
      have hacc_ne : ∀ e', e' ≠ e → accOf { g with
          storage := aset g.storage s (add_subscriber v e)
          acc := aset g.acc e (if s ∈ accOf g e then accOf g e else accOf g e ++ [s]) } e'
          = accOf g e' := by
        intro e' he'
        unfold accOf
        dsimp only
        rw [alookup_aset_ne _ _ _ _ he']
      refine ⟨?_, h.regKeys, h.regIff, ?_, h.curStack, h.stackReg, h.lastBound,
              ?_, h.lastFresh, ?_, ?_, ?_⟩
      · show ∀ p ∈ aset g.storage s (add_subscriber v e), p.1 < g.nextSig
        exact @aset_forall_keys StoredValue (fun x => x < g.nextSig) g.storage s
          (add_subscriber v e) h.storageKeys hsbound
      · intro s' v' hv'
        rcases alookup_aset_cases hv' with ⟨hs', hveq⟩ | ⟨hs', hold⟩
        · subst hveq
          intro x hxm
          rcases add_subscriber_mem hxm with hm | hm
          · exact h.subsReg s v hx x hm
          · subst hm
            exact hereg
        · exact h.subsReg s' v' hold
      · intro e' s' hs'
        by_cases he' : e' = e
        · subst he'
          rw [hacc_self] at hs'
          by_cases hmem : s ∈ accOf g e'
          · rw [if_pos hmem] at hs'
            exact h.accBound e' s' hs'
          · rw [if_neg hmem] at hs'
            rcases List.mem_append.mp hs' with hm | hm
            · exact h.accBound e' s' hm
            · simp at hm
              subst hm
              exact hsbound
        · rw [hacc_ne e' he'] at hs'
          exact h.accBound e' s' hs'
      · intro e' he'
        have hne : e' ≠ e := fun hh => he' (hh ▸ hestk)
        rw [hacc_ne e' hne]
        exact h.accFresh e' he'
      · intro e' s' hs' hl
        rw [hlive_eq] at hl
        by_cases he' : e' = e
        · subst he'
          rw [hacc_self] at hs'
          by_cases hmem : s ∈ accOf g e'
          · rw [if_pos hmem] at hs'
            exact hgrow s' e' (h.accSubs e' s' hs' hl)
          · rw [if_neg hmem] at hs'
            rcases List.mem_append.mp hs' with hm | hm
            · exact hgrow s' e' (h.accSubs e' s' hm hl)
            · simp at hm
              subst hm
              rw [hsubs_self]
              exact add_subscriber_self_mem v e'
        · rw [hacc_ne e' he'] at hs'
          exact hgrow s' e' (h.accSubs e' s' hs' hl)
      · intro e' s' hs' hl
        rw [hlive_eq] at hl
        exact (h.lastSubs e' s' hs' hl).imp (hgrow s' e') id

theorem setValue_inv {g : ReactiveGraph} {X : Nat → Nat → Prop} (s v : Nat)
    (h : InvC1 g X) : InvC1 (setValue g s v).1 X := by
  cases hx : alookup g.storage s with
  | none => rw [setValue_absent g s v hx]; exact h
  | some old =>
    have heq : (setValue g s v).1 =
        { g with storage := aset g.storage s { old with value := v } } := by
      unfold setValue
      rw [hx]
    rw [heq]
    have hsbound : s < g.nextSig := h.storageKeys _ (alookup_mem _ _ _ hx)
    have hslive : liveSig g s = true := by
      unfold liveSig
      rw [hx]
      rfl
    have hlive_eq := @liveSig_aset_eq g
      { g with storage := aset g.storage s { old with value := v } }
      s { old with value := v } rfl hslive
    have hsubs_self : subsOf { g with
        storage := aset g.storage s { old with value := v } } s
        = ({ old with value := v } : StoredValue).subscribers := subsOf_aset_self rfl
    have hsubs_eq : ∀ s', subsOf { g with
        storage := aset g.storage s { old with value := v } } s' = subsOf g s' := by
      intro s'
      by_cases hs' : s' = s
      · subst hs'
        rw [hsubs_self]
        unfold subsOf
        rw [hx]
      · exact subsOf_aset_ne rfl hs'
    refine ⟨?_, h.regKeys, h.regIff, ?_, h.curStack, h.stackReg, h.lastBound,
            h.accBound, h.lastFresh, h.accFresh, ?_, ?_⟩
    · show ∀ p ∈ aset g.storage s { old with value := v }, p.1 < g.nextSig
      exact @aset_forall_keys StoredValue (fun x => x < g.nextSig) g.storage s
        { old with value := v } h.storageKeys hsbound
    · intro s' v' hv'
      rcases alookup_aset_cases hv' with ⟨hs', hveq⟩ | ⟨hs', hold⟩
      · subst hveq
        exact h.subsReg s old hx
      · exact h.subsReg s' v' hold
    · intro e' s' hs' hl
      rw [hlive_eq] at hl
      rw [hsubs_eq]
      exact h.accSubs e' s' hs' hl
    · intro e' s' hs' hl
      rw [hlive_eq] at hl
      rw [hsubs_eq]
      exact h.lastSubs e' s' hs' hl

theorem readSignal_inv {g : ReactiveGraph} {X : Nat → Nat → Prop} (s : Nat)
    (h : InvC1 g X) : InvC1 (readSignal g s).g X := by
  unfold readSignal
  dsimp only
  split
  · exact track_inv s h
  · exact track_inv s h

theorem evalExp_inv {env : List Nat} {g : ReactiveGraph} {X : Nat → Nat → Prop}
    (x : Exp) (h : InvC1 g X) : InvC1 (evalExp env g x).g X := by
  induction x generalizing g with
  | lit n => exact h
  | read r => exact readSignal_inv _ h
  | add a b iha ihb =>
    rw [evalExp]
    split
    next g1 er v heq =>
      have ha := iha h
      rw [heq] at ha
      exact ha
    next g1 v1 heq =>
      have ha := iha h
      rw [heq] at ha
      split
      next g2 er v heq2 =>
        have hb := ihb ha
        rw [heq2] at hb
        exact hb
      next g2 v2 heq2 =>
        have hb := ihb ha
        rw [heq2] at hb
        exact hb
  | mul a b iha ihb =>
    rw [evalExp]
    split
    next g1 er v heq =>
      have ha := iha h
      rw [heq] at ha
      exact ha
    next g1 v1 heq =>
      have ha := iha h
      rw [heq] at ha
      split
      next g2 er v heq2 =>
        have hb := ihb ha
        rw [heq2] at hb
        exact hb
      next g2 v2 heq2 =>
        have hb := ihb ha
        rw [heq2] at hb
        exact hb

theorem signal_insert_inv {g : ReactiveGraph} {X : Nat → Nat → Prop} (init : Nat)
    (h : InvC1 g X) : InvC1 { g with
      storage := g.storage ++ [(g.nextSig, ⟨init, []⟩)]
      nextSig := g.nextSig + 1 } X := by
  have hlook : ∀ s', s' ≠ g.nextSig →
      alookup (g.storage ++ [(g.nextSig, (⟨init, []⟩ : StoredValue))]) s'
        = alookup g.storage s' := by
    intro s' hs'
    cases hx : alookup g.storage s' with
    | some w => exact alookup_append_some _ _ _ _ hx
    | none =>
      rw [alookup_append_none _ _ _ hx, alookup]
      rw [if_neg (fun hh => hs' hh.symm)]
      rw [alookup]
  have hsubs_eq : ∀ s', s' ≠ g.nextSig → subsOf { g with
      storage := g.storage ++ [(g.nextSig, ⟨init, []⟩)]
      nextSig := g.nextSig + 1 } s' = subsOf g s' := by
    intro s' hs'
    unfold subsOf
    dsimp only
    rw [hlook s' hs']
  have hlive_eq : ∀ s', s' ≠ g.nextSig → liveSig { g with
      storage := g.storage ++ [(g.nextSig, ⟨init, []⟩)]
      nextSig := g.nextSig + 1 } s' = liveSig g s' := by
    intro s' hs'
    unfold liveSig
    dsimp only
    rw [hlook s' hs']
  refine ⟨?_, h.regKeys, h.regIff, ?_, h.curStack, h.stackReg, ?_, ?_,
          h.lastFresh, h.accFresh, ?_, ?_⟩
  · intro p hp
    rcases List.mem_append.mp hp with hp | hp
    · exact Nat.lt_succ_of_lt (h.storageKeys p hp)
    · simp at hp
      simp [hp]
  · intro s' v' hv'
    dsimp only at hv'
    rcases alookup_append_cases hv' with hold | ⟨_, hnew⟩
    · exact h.subsReg s' v' hold
    · rw [alookup] at hnew
      by_cases hs : g.nextSig = s'
      · rw [if_pos hs] at hnew
        injection hnew with hnew
        subst hnew
        simp
      · rw [if_neg hs] at hnew
        rw [alookup] at hnew
        exact Option.noConfusion hnew
  · intro e' s' hs'
    exact Nat.lt_succ_of_lt (h.lastBound e' s' hs')
  · intro e' s' hs'
    exact Nat.lt_succ_of_lt (h.accBound e' s' hs')
  · intro e' s' hs' hl
    have hne : s' ≠ g.nextSig := fun hh =>
      absurd (hh ▸ h.accBound e' s' hs') (by simp)
    rw [hlive_eq s' hne] at hl
    rw [hsubs_eq s' hne]
    exact h.accSubs e' s' hs' hl
  · intro e' s' hs' hl
    have hne : s' ≠ g.nextSig := fun hh =>
      absurd (hh ▸ h.lastBound e' s' hs') (by simp)
    rw [hlive_eq s' hne] at hl
    rw [hsubs_eq s' hne]
    exact h.lastSubs e' s' hs' hl

theorem create_signal_inv {g : ReactiveGraph} {X : Nat → Nat → Prop} (init : Nat)
    (h : InvC1 g X) : InvC1 (create_signal g init) X := by
  unfold create_signal
  exact signal_insert_inv init h

theorem effect_insert_inv {g : ReactiveGraph} {X : Nat → Nat → Prop} (cl : Closure)
    (h : InvC1 g X) : InvC1 { g with
      subscribers := g.subscribers ++ [(g.nextEff, cl)]
      nextEff := g.nextEff + 1
      createdLog := g.createdLog ++ [g.nextEff] } X := by
  have hreg_eq : ∀ e, isRegistered { g with
      subscribers := g.subscribers ++ [(g.nextEff, cl)]
      nextEff := g.nextEff + 1
      createdLog := g.createdLog ++ [g.nextEff] } e = true ↔ e < g.nextEff + 1 := by
    intro e
    unfold isRegistered
    dsimp only
    cases hx : alookup g.subscribers e with
    | some c =>
      rw [alookup_append_some _ _ _ _ hx]
      have := (h.regIff e).mp (by unfold isRegistered; rw [hx]; rfl)
      simp [Nat.lt_succ_of_lt this]
    | none =>
      rw [alookup_append_none _ _ _ hx, alookup]
      by_cases he : g.nextEff = e
      · subst he
        simp
      · rw [if_neg he, alookup]
        have hge : ¬ e < g.nextEff := fun hlt =>
          by simpa [isRegistered, hx] using (h.regIff e).mpr hlt
        have hne : ¬ e < g.nextEff + 1 := by omega
        simp [hne]
  have hreg_mono : ∀ e, isRegistered g e = true → isRegistered { g with
      subscribers := g.subscribers ++ [(g.nextEff, cl)]
      nextEff := g.nextEff + 1
      createdLog := g.createdLog ++ [g.nextEff] } e = true := by
    intro e he
    unfold isRegistered at he ⊢
    dsimp only
    cases hx : alookup g.subscribers e with
    | none => rw [hx] at he; exact absurd he (by simp)
    | some c => rw [alookup_append_some _ _ _ _ hx]; rfl
  refine ⟨h.storageKeys, ?_, hreg_eq, ?_, h.curStack, ?_, h.lastBound,
          h.accBound, ?_, h.accFresh, h.accSubs, h.lastSubs⟩
  · intro p hp
    rcases List.mem_append.mp hp with hp | hp
    · exact Nat.lt_succ_of_lt (h.regKeys p hp)
    · simp at hp
      simp [hp]
  · intro s v hv x hx
    exact hreg_mono x (h.subsReg s v hv x hx)
  · intro e he
    exact hreg_mono e (h.stackReg e he)
  · intro e he
    dsimp only at he
    exact h.lastFresh e (by omega)

theorem dispose_inv {g : ReactiveGraph} {X : Nat → Nat → Prop} (s : Nat)
    (h : InvC1 g X) : InvC1 (dispose g s) X := by
  have hlook : ∀ s', s' ≠ s →
      alookup (aremove g.storage s) s' = alookup g.storage s' :=
    fun s' hs' => alookup_aremove_ne _ _ _ hs'
  have hlive : ∀ s', liveSig (dispose g s) s' = true → s' ≠ s ∧ liveSig g s' = true := by
    intro s' hl
    unfold liveSig dispose at hl
    dsimp only at hl
    by_cases hs' : s' = s
    · subst hs'
      rw [alookup_aremove_self] at hl
      exact absurd hl (by simp)
    · rw [hlook s' hs'] at hl
      exact ⟨hs', hl⟩
  have hsubs_eq : ∀ s', s' ≠ s → subsOf (dispose g s) s' = subsOf g s' := by
    intro s' hs'
    unfold subsOf dispose
    dsimp only
    rw [hlook s' hs']
  refine ⟨?_, h.regKeys, h.regIff, ?_, h.curStack, h.stackReg, h.lastBound,
          h.accBound, h.lastFresh, h.accFresh, ?_, ?_⟩
  · intro p hp
    unfold dispose aremove at hp
    dsimp only at hp
    exact h.storageKeys p (List.mem_of_mem_filter hp)
  · intro s' v hv
    unfold dispose at hv
    dsimp only at hv
    by_cases hs' : s' = s
    · subst hs'
      rw [alookup_aremove_self] at hv
      exact Option.noConfusion hv
    · rw [alookup_aremove_ne _ _ _ hs'] at hv
      exact h.subsReg s' v hv
  · intro e' s' hs' hl
    obtain ⟨hne, hl'⟩ := hlive s' hl
    rw [hsubs_eq s' hne]
    exact h.accSubs e' s' hs' hl'
  · intro e' s' hs' hl
    obtain ⟨hne, hl'⟩ := hlive s' hl
    rw [hsubs_eq s' hne]
    exact h.lastSubs e' s' hs' hl'

/-- Preservation of the C1 invariant through the interpreter, for
executions that complete without re-entering a running effect.
`run_list` discharges the exceptions of the effects it runs;
`run_effect` discharges the exceptions of its own effect. -/
theorem inv_all (f : Nat) :
    (∀ env g c g' X, InvC1 g X → runCmd f env g c = (g', none) →
      g'.reentered = false → InvC1 g' X) ∧
    (∀ g s g' X, InvC1 g X → notify_subscribers f g s = (g', none) →
      g'.reentered = false → InvC1 g' X) ∧
    (∀ g l g' X, InvC1 g X → run_list f g l = (g', none) →
      g'.reentered = false → InvC1 g' (fun s e => X s e ∧ e ∉ l)) ∧
    (∀ g e g' X, InvC1 g X → run_effect f g e = (g', none) →
      g'.reentered = false → InvC1 g' (fun s e' => X s e' ∧ e' ≠ e)) ∧
    (∀ g cl g' X, InvC1 g X → create_effect f g cl = (g', none) →
      g'.reentered = false → InvC1 g' X) := by
  induction f with
  | zero =>
    refine ⟨?_, ?_, ?_, ?_, ?_⟩
    · intro env g c g' X hinv h hre
      rw [runCmd] at h
      injection h with h1 h2
      exact Option.noConfusion h2
    · intro g s g' X hinv h hre
      rw [notify_subscribers] at h
      injection h with h1 h2
      exact Option.noConfusion h2
    · intro g l g' X hinv h hre
      rw [run_list] at h
      injection h with h1 h2
      exact Option.noConfusion h2
    · intro g e g' X hinv h hre
      rw [run_effect] at h
      injection h with h1 h2
      exact Option.noConfusion h2
    · intro g cl g' X hinv h hre
      rw [create_effect] at h
      injection h with h1 h2
      exact Option.noConfusion h2
  | succ f ih =>
    obtain ⟨ihC, ihN, ihL, ihE, ihX⟩ := ih
    have hEff : ∀ g e g' X, InvC1 g X → run_effect (f + 1) g e = (g', none) →
        g'.reentered = false → InvC1 g' (fun s e' => X s e' ∧ e' ≠ e) := by
      intro g e g' X hinv h hre
      cases hcl : alookup g.subscribers e with
      | none =>
        rw [run_effect_absent f g e hcl] at h
        injection h with h1 h2
        subst h1
        have hfresh : lastReadsOf g e = [] := by
          have hnr : ¬ e < g.nextEff := by
            intro hlt
            have := (hinv.regIff e).mpr hlt
            unfold isRegistered at this
            rw [hcl] at this
            exact absurd this (by simp)
          exact hinv.lastFresh e (by omega)
        refine ⟨hinv.storageKeys, hinv.regKeys, hinv.regIff, hinv.subsReg,
                hinv.curStack, hinv.stackReg, hinv.lastBound, hinv.accBound,
                hinv.lastFresh, hinv.accFresh, hinv.accSubs, ?_⟩
        intro e' s hm hl
        by_cases he' : e' = e
        · subst he'
          rw [hfresh] at hm
          simp at hm
        · exact (hinv.lastSubs e' s hm hl).imp id (fun hx => ⟨hx, he'⟩)
      | some cl =>
        obtain ⟨body, env⟩ := cl
        rw [run_effect_found f g e body env hcl] at h
        split at h
        next g3 er heq3 =>
          injection h with h1 h2
          exact Option.noConfusion h2
        next g3 heq3 =>
          injection h with h1 h2
          subst h1
          have hre3 : g3.reentered = false := hre
          have hereg : isRegistered g e = true := by
            unfold isRegistered
            rw [hcl]
            rfl
          have haccG2_self : accOf { g with
              current := some e
              runLog := g.runLog ++ [e]
              stack := e :: g.stack
              reentered := g.reentered || g.stack.contains e
              acc := aset g.acc e [] } e = [] := by
            unfold accOf
            dsimp only
            rw [alookup_aset_self]
            rfl
          have haccG2_ne : ∀ e1, e1 ≠ e → accOf { g with
              current := some e
              runLog := g.runLog ++ [e]
              stack := e :: g.stack
              reentered := g.reentered || g.stack.contains e
              acc := aset g.acc e [] } e1 = accOf g e1 := by
            intro e1 he1
            unfold accOf
            dsimp only
            rw [alookup_aset_ne _ _ _ _ he1]
          have hinv2 : InvC1 { g with
              current := some e
              runLog := g.runLog ++ [e]
              stack := e :: g.stack
              reentered := g.reentered || g.stack.contains e
              acc := aset g.acc e [] } X := by
            refine ⟨hinv.storageKeys, hinv.regKeys, hinv.regIff, hinv.subsReg,
                    ?_, ?_, hinv.lastBound, ?_, hinv.lastFresh, ?_, ?_,
                    hinv.lastSubs⟩
            · intro e1 he1
              injection he1 with he1
              subst he1
              exact List.mem_cons_self _ _
            · intro e1 he1
              rcases List.mem_cons.mp he1 with hh | hh
              · subst hh
                exact hereg
              · exact hinv.stackReg e1 hh
            · intro e1 s hs
              by_cases he1 : e1 = e
              · subst he1
                rw [haccG2_self] at hs
                simp at hs
              · rw [haccG2_ne e1 he1] at hs
                exact hinv.accBound e1 s hs
            · intro e1 he1
              have hne : e1 ≠ e := fun hh => he1 (hh ▸ List.mem_cons_self _ _)
              rw [haccG2_ne e1 hne]
              exact hinv.accFresh e1 (fun hh => he1 (List.mem_cons_of_mem _ hh))
            · intro e1 s hs hl
              by_cases he1 : e1 = e
              · subst he1
                rw [haccG2_self] at hs
                simp at hs
              · rw [haccG2_ne e1 he1] at hs
                exact hinv.accSubs e1 s hs hl
          have hinv3 := ihC env { g with
              current := some e
              runLog := g.runLog ++ [e]
              stack := e :: g.stack
              reentered := g.reentered || g.stack.contains e
              acc := aset g.acc e [] } body g3 X hinv2 heq3 hre3
          have hfr := (frame_all f).1 env { g with
              current := some e
              runLog := g.runLog ++ [e]
              stack := e :: g.stack
              reentered := g.reentered || g.stack.contains e
              acc := aset g.acc e [] } body g3 heq3
          have hext23 : Extends { g with
              current := some e
              runLog := g.runLog ++ [e]
              stack := e :: g.stack
              reentered := g.reentered || g.stack.contains e
              acc := aset g.acc e [] } g3 := by
            have hx := (extends_all f).1 env { g with
                current := some e
                runLog := g.runLog ++ [e]
                stack := e :: g.stack
                reentered := g.reentered || g.stack.contains e
                acc := aset g.acc e [] } body
            rw [heq3] at hx
            exact hx
          have hstk3 : g3.stack = e :: g.stack := hfr.2
          have hlr_self : lastReadsOf { g3 with
              current := g.current
              stack := g.stack
              lastReads := aset g3.lastReads e (accOf g3 e)
              acc := aset g3.acc e [] } e = accOf g3 e := by
            unfold lastReadsOf
            dsimp only
            rw [alookup_aset_self]
            rfl
          have hlr_ne : ∀ e1, e1 ≠ e → lastReadsOf { g3 with
              current := g.current
              stack := g.stack
              lastReads := aset g3.lastReads e (accOf g3 e)
              acc := aset g3.acc e [] } e1 = lastReadsOf g3 e1 := by
            intro e1 he1
            unfold lastReadsOf
            dsimp only
            rw [alookup_aset_ne _ _ _ _ he1]
          have hacc4_self : accOf { g3 with
              current := g.current
              stack := g.stack
              lastReads := aset g3.lastReads e (accOf g3 e)
              acc := aset g3.acc e [] } e = [] := by
            unfold accOf
            dsimp only
            rw [alookup_aset_self]
            rfl
          have hacc4_ne : ∀ e1, e1 ≠ e → accOf { g3 with
              current := g.current
              stack := g.stack
              lastReads := aset g3.lastReads e (accOf g3 e)
              acc := aset g3.acc e [] } e1 = accOf g3 e1 := by
            intro e1 he1
            unfold accOf
            dsimp only
            rw [alookup_aset_ne _ _ _ _ he1]
          have henext : e < g3.nextEff := by
            have h1 : e < g.nextEff := (hinv.regIff e).mp hereg
            have h2 := hext23.2.2.2.1
            dsimp only at h2
            omega
          refine ⟨hinv3.storageKeys, hinv3.regKeys, hinv3.regIff, hinv3.subsReg,
                  ?_, ?_, ?_, ?_, ?_, ?_, ?_, ?_⟩
          · intro e1 he1
            dsimp only at he1
            exact hinv.curStack e1 he1
          · intro e1 he1
            dsimp only at he1
            have hr := hinv.stackReg e1 he1
            exact isRegistered_persists hext23 hr
          · intro e1 s hs
            by_cases he1 : e1 = e
            · subst he1
              rw [hlr_self] at hs
              exact hinv3.accBound e1 s hs
            · rw [hlr_ne e1 he1] at hs
              exact hinv3.lastBound e1 s hs
          · intro e1 s hs
            by_cases he1 : e1 = e
            · subst he1
              rw [hacc4_self] at hs
              simp at hs
            · rw [hacc4_ne e1 he1] at hs
              exact hinv3.accBound e1 s hs
          · intro e1 he1
            dsimp only at he1
            by_cases hee : e1 = e
            · subst hee
              exact absurd he1 (by omega)
            · rw [hlr_ne e1 hee]
              exact hinv3.lastFresh e1 he1
          · intro e1 he1
            dsimp only at he1
            by_cases hee : e1 = e
            · subst hee
              exact hacc4_self
            · rw [hacc4_ne e1 hee]
              apply hinv3.accFresh e1
              rw [hstk3]
              intro hmem
              rcases List.mem_cons.mp hmem with hh | hh
              · exact hee hh
              · exact he1 hh
          · intro e1 s hs hl
            by_cases he1 : e1 = e
            · subst he1
              rw [hacc4_self] at hs
              simp at hs
            · rw [hacc4_ne e1 he1] at hs
              exact hinv3.accSubs e1 s hs hl
          · intro e1 s hs hl
            by_cases he1 : e1 = e
            · subst he1
              rw [hlr_self] at hs
              exact Or.inl (hinv3.accSubs e1 s hs hl)
            · rw [hlr_ne e1 he1] at hs
              exact (hinv3.lastSubs e1 s hs hl).imp id (fun hx => ⟨hx, he1⟩)
    have hCre : ∀ g cl g' X, InvC1 g X → create_effect (f + 1) g cl = (g', none) →
        g'.reentered = false → InvC1 g' X := by
      intro g cl g' X hinv h hre
      rw [create_effect] at h
      have hinv1 := effect_insert_inv cl hinv
      have hinv2 := ihE { g with
          subscribers := g.subscribers ++ [(g.nextEff, cl)]
          nextEff := g.nextEff + 1
          createdLog := g.createdLog ++ [g.nextEff] } g.nextEff g' X hinv1 h hre
      exact hinv2.mono (fun s e hp => hp.1)
    have hLst : ∀ g l g' X, InvC1 g X → run_list (f + 1) g l = (g', none) →
        g'.reentered = false → InvC1 g' (fun s e => X s e ∧ e ∉ l) := by
      intro g l g' X hinv h hre
      cases l with
      | nil =>
        rw [run_list] at h
        injection h with h1 h2
        subst h1
        exact hinv.mono (fun s e hx => ⟨hx, by simp⟩)
      | cons a es =>
        rw [run_list] at h
        obtain ⟨g1, h1, h2⟩ := andThen_eq_ok h
        have hre1 : g1.reentered = false := by
          cases hb : g1.reentered with
          | false => rfl
          | true =>
            have hm := (reent_mono f).2.2.1 g1 es hb
            rw [h2] at hm
            dsimp only at hm
            rw [hm] at hre
            exact Bool.noConfusion hre
        have hinv1 := ihE g a g1 X hinv h1 hre1
        have hinv2 := ihL g1 es g' (fun s e => X s e ∧ e ≠ a) hinv1 h2 hre
        refine hinv2.mono (fun s e hp => ⟨hp.1.1, fun hm => ?_⟩)
        rcases List.mem_cons.mp hm with hh | hh
        · exact hp.1.2 hh
        · exact hp.2 hh
    have hNtf : ∀ g s g' X, InvC1 g X → notify_subscribers (f + 1) g s = (g', none) →
        g'.reentered = false → InvC1 g' X := by
      intro g s g' X hinv h hre
      cases hx : alookup g.storage s with
      | none =>
        rw [notify_absent f g s hx] at h
        injection h with h1 h2
        subst h1
        exact hinv
      | some v =>
        rw [notify_found f g s v hx, untrack_found hx] at h
        dsimp only at h
        have hslive : liveSig g s = true := by
          unfold liveSig
          rw [hx]
          rfl
        have hsbound : s < g.nextSig := hinv.storageKeys _ (alookup_mem _ _ _ hx)
        have hnoacc : ∀ e, s ∉ accOf g e := by
          intro e hmem
          have hestk : e ∈ g.stack := by
            by_contra hns
            rw [hinv.accFresh e hns] at hmem
            simp at hmem
          have hesubs : e ∈ subsOf g s := hinv.accSubs e s hmem hslive
          have hesubs2 : e ∈ v.subscribers := by
            unfold subsOf at hesubs
            rw [hx] at hesubs
            exact hesubs
          have hereg : isRegistered g e = true := hinv.stackReg e hestk
          have hstk2 : e ∈ ({ g with
              storage := aset g.storage s { v with subscribers := [] }
              trigLog := g.trigLog ++ [(s, v.subscribers)] } : ReactiveGraph).stack :=
            hestk
          have hreg2 : isRegistered { g with
              storage := aset g.storage s { v with subscribers := [] }
              trigLog := g.trigLog ++ [(s, v.subscribers)] } e = true := hereg
          have hrt := run_list_reenter f { g with
              storage := aset g.storage s { v with subscribers := [] }
              trigLog := g.trigLog ++ [(s, v.subscribers)] } v.subscribers g' e
            h hesubs2 hstk2 hreg2
          rw [hrt] at hre
          exact Bool.noConfusion hre
        have hlive_eq := @liveSig_aset_eq g { g with
            storage := aset g.storage s { v with subscribers := [] }
            trigLog := g.trigLog ++ [(s, v.subscribers)] }
          s { v with subscribers := [] } rfl hslive
        have hsubs_self : subsOf { g with
            storage := aset g.storage s { v with subscribers := [] }
            trigLog := g.trigLog ++ [(s, v.subscribers)] } s
            = ({ v with subscribers := [] } : StoredValue).subscribers :=
          subsOf_aset_self rfl
        have hinv2 : InvC1 { g with
            storage := aset g.storage s { v with subscribers := [] }
            trigLog := g.trigLog ++ [(s, v.subscribers)] }
            (fun s' e => X s' e ∨ (s' = s ∧ e ∈ v.subscribers)) := by
          refine ⟨?_, hinv.regKeys, hinv.regIff, ?_, hinv.curStack, hinv.stackReg,
                  hinv.lastBound, hinv.accBound, hinv.lastFresh, hinv.accFresh,
                  ?_, ?_⟩
          · show ∀ p ∈ aset g.storage s { v with subscribers := [] },
              p.1 < g.nextSig
            exact @aset_forall_keys StoredValue (fun x => x < g.nextSig) g.storage
              s { v with subscribers := [] } hinv.storageKeys hsbound
          · intro s' v' hv'
            rcases alookup_aset_cases hv' with ⟨hs', hveq⟩ | ⟨hs', hold⟩
            · subst hveq
              intro e hme
              simp at hme
            · exact hinv.subsReg s' v' hold
          · intro e' s' hs' hl
            rw [hlive_eq] at hl
            by_cases hcase : s' = s
            · subst hcase
              exact absurd hs' (hnoacc e')
            · rw [subsOf_aset_ne rfl hcase]
              exact hinv.accSubs e' s' hs' hl
          · intro e' s' hs' hl
            rw [hlive_eq] at hl
            have hbase := hinv.lastSubs e' s' hs' hl
            by_cases hcase : s' = s
            · subst hcase
              rcases hbase with hmem | hX
              · have hmem2 : e' ∈ v.subscribers := by
                  unfold subsOf at hmem
                  rw [hx] at hmem
                  exact hmem
                exact Or.inr (Or.inr ⟨rfl, hmem2⟩)
              · exact Or.inr (Or.inl hX)
            · rw [subsOf_aset_ne rfl hcase]
              exact hbase.imp id Or.inl
        have hfin := ihL { g with
            storage := aset g.storage s { v with subscribers := [] }
            trigLog := g.trigLog ++ [(s, v.subscribers)] } v.subscribers g'
          (fun s' e => X s' e ∨ (s' = s ∧ e ∈ v.subscribers)) hinv2 h hre
        refine hfin.mono (fun s' e hp => ?_)
        rcases hp.1 with hX | ⟨_, hm⟩
        · exact hX
        · exact absurd hm hp.2
    have hCmd : ∀ env g c g' X, InvC1 g X → runCmd (f + 1) env g c = (g', none) →
        g'.reentered = false → InvC1 g' X := by
      intro env g c g' X hinv h hre
      cases c with
      | skip =>
        rw [runCmd] at h
        injection h with h1 h2
        subst h1
        exact hinv
      | seq a b =>
        rw [runCmd] at h
        obtain ⟨g1, ha, hb⟩ := andThen_eq_ok h
        have hre1 : g1.reentered = false := by
          cases hb1 : g1.reentered with
          | false => rfl
          | true =>
            have hm := (reent_mono f).1 env g1 b hb1
            rw [hb] at hm
            dsimp only at hm
            rw [hm] at hre
            exact Bool.noConfusion hre
        have hinv1 := ihC env g a g1 X hinv ha hre1
        exact ihC env g1 b g' X hinv1 hb hre
      | ite cnd a b =>
        rw [runCmd] at h
        split at h
        next g1 er v heq =>
          injection h with h1 h2
          exact Option.noConfusion h2
        next g1 v heq =>
          have he := @evalExp_inv env g X cnd hinv
          rw [heq] at he
          by_cases hv : v ≠ 0
          · rw [if_pos hv] at h
            exact ihC env g1 a g' X he h hre
          · rw [if_neg hv] at h
            exact ihC env g1 b g' X he h hre
      | write r e =>
        rw [runCmd] at h
        split at h
        next g1 er v heq =>
          injection h with h1 h2
          exact Option.noConfusion h2
        next g1 v heq =>
          have he := @evalExp_inv env g X e hinv
          rw [heq] at he
          obtain ⟨g2, hsv, hnt⟩ := andThen_eq_ok h
          have hsw := @setValue_inv g1 X (resolveRef env r) v he
          rw [hsv] at hsw
          exact ihN g2 (resolveRef env r) g' X hsw hnt hre
      | setExt e =>
        rw [runCmd] at h
        split at h
        next g1 er v heq =>
          injection h with h1 h2
          exact Option.noConfusion h2
        next g1 v heq =>
          injection h with h1 h2
          subst h1
          have he := @evalExp_inv env g X e hinv
          rw [heq] at he
          exact ⟨he.storageKeys, he.regKeys, he.regIff, he.subsReg, he.curStack,
                 he.stackReg, he.lastBound, he.accBound, he.lastFresh,
                 he.accFresh, he.accSubs, he.lastSubs⟩
      | letSignal init k =>
        rw [runCmd] at h
        have hinv1 := signal_insert_inv init hinv
        exact ihC (g.nextSig :: env) _ k g' X hinv1 h hre
      | mkEffect body =>
        rw [runCmd] at h
        exact ihX g (body, env) g' X hinv h hre
    exact ⟨hCmd, hNtf, hLst, hEff, hCre⟩

theorem track_reent (g : ReactiveGraph) (s : Nat) :
    (track g s).reentered = g.reentered := by
  unfold track
  cases alookup g.storage s with
  | none => rfl
  | some v => cases g.current <;> rfl

theorem readSignal_reent (g : ReactiveGraph) (s : Nat) :
    ((readSignal g s).g).reentered = g.reentered := by
  unfold readSignal
  dsimp only
  split <;> exact track_reent g s

theorem setValue_reent (g : ReactiveGraph) (s v : Nat) :
    ((setValue g s v).1).reentered = g.reentered := by
  unfold setValue
  cases alookup g.storage s <;> rfl

theorem runOp_reent (f : Nat) (g : ReactiveGraph) (op : Op) :
    g.reentered = true → ((runOp f g op).1).reentered = true := by
  intro hg
  cases op with
  | newSignal init => exact hg
  | newEffect body => exact (reent_mono f).2.2.2.2 g (body, []) hg
  | write s v =>
    rw [runOp, writeSignal]
    refine reent_andThen (fun hh => ?_) (fun g1 hh => (reent_mono f).2.1 g1 s hh) hg
    rw [setValue_reent]
    exact hh
  | disposeSig s => exact hg
  | readTop s =>
    rw [runOp]
    cases hx : readSignal g s with
    | mk g1 er val =>
      have := readSignal_reent g s
      rw [hx] at this
      dsimp only
      dsimp only at this
      rw [this]
      exact hg

theorem runOps_reent (f : Nat) (ops : List Op) (g : ReactiveGraph) :
    g.reentered = true → ((runOps f g ops).1).reentered = true := by
  induction ops generalizing g with
  | nil => exact fun h => h
  | cons op ops ih =>
    intro hg
    rw [runOps]
    exact reent_andThen (runOp_reent f g op) (fun g1 hh => ih g1 hh) hg

theorem runOp_inv {g g' : ReactiveGraph} {X : Nat → Nat → Prop} (f : Nat)
    (op : Op) (hinv : InvC1 g X) (h : runOp f g op = (g', none))
    (hre : g'.reentered = false) : InvC1 g' X := by
  cases op with
  | newSignal init =>
    rw [runOp] at h
    injection h with h1 h2
    subst h1
    exact create_signal_inv init hinv
  | newEffect body =>
    rw [runOp] at h
    exact (inv_all f).2.2.2.2 g (body, []) g' X hinv h hre
  | write s v =>
    rw [runOp, writeSignal] at h
    obtain ⟨g1, hsv, hnt⟩ := andThen_eq_ok h
    have hs := @setValue_inv g X s v hinv
    rw [hsv] at hs
    exact (inv_all f).2.1 g1 s g' X hs hnt hre
  | disposeSig s =>
    rw [runOp] at h
    injection h with h1 h2
    subst h1
    exact dispose_inv s hinv
  | readTop s =>
    rw [runOp] at h
    have hr := @readSignal_inv g X s hinv
    cases hx : readSignal g s with
    | mk g1 er val =>
      rw [hx] at h hr
      injection h with h1 h2
      subst h1
      exact hr

theorem runOps_inv {g g' : ReactiveGraph} {X : Nat → Nat → Prop} (f : Nat)
    (ops : List Op) (hinv : InvC1 g X) (h : runOps f g ops = (g', none))
    (hre : g'.reentered = false) : InvC1 g' X := by
  induction ops generalizing g with
  | nil =>
    rw [runOps] at h
    injection h with h1 h2
    subst h1
    exact hinv
  | cons op ops ih =>
    rw [runOps] at h
    obtain ⟨g1, h1, h2⟩ := andThen_eq_ok h
    have hre1 : g1.reentered = false := by
      cases hb : g1.reentered with
      | false => rfl
      | true =>
        have hm := runOps_reent f ops g1 hb
        rw [h2] at hm
        dsimp only at hm
        rw [hm] at hre
        exact Bool.noConfusion hre
    have hinv1 := runOp_inv f op hinv h1 hre1
    exact ih hinv1 h2

theorem inv_empty : InvC1 ReactiveGraph.empty (fun _ _ => False) := by
  refine ⟨?_, ?_, ?_, ?_, ?_, ?_, ?_, ?_, ?_, ?_, ?_, ?_⟩
  · intro p hp
    simp [ReactiveGraph.empty] at hp
  · intro p hp
    simp [ReactiveGraph.empty] at hp
  · intro e
    constructor
    · intro he
      simp [isRegistered, ReactiveGraph.empty, alookup] at he
    · intro he
      exact absurd he (by simp [ReactiveGraph.empty])
  · intro s v hv
    rw [show ReactiveGraph.empty.storage = [] from rfl, alookup] at hv
    exact Option.noConfusion hv
  · intro e he
    rw [show ReactiveGraph.empty.current = none from rfl] at he
    exact Option.noConfusion he
  · intro e he
    simp [ReactiveGraph.empty] at he
  · intro e s hs
    rw [show lastReadsOf ReactiveGraph.empty e = [] from rfl] at hs
    simp at hs
  · intro e s hs
    rw [show accOf ReactiveGraph.empty e = [] from rfl] at hs
    simp at hs
  · intro e he
    rfl
  · intro e he
    rfl
  · intro e s hs
    rw [show accOf ReactiveGraph.empty e = [] from rfl] at hs
    simp at hs
  · intro e s hs
    rw [show lastReadsOf ReactiveGraph.empty e = [] from rfl] at hs
    simp at hs

/-- C1: the claimed equality is false — `C1_counterexample` exhibits a
reachable quiescent state with a stale entry (effect 0 stays in signal
2's subscriber set although its most recent run did not read signal 2),
because `notify_subscribers` clears only the written signal's set.
Amended claim, proved here: one inclusion does hold.  For every
completed operation sequence from the empty graph that never re-enters
an already-running effect, at the final (quiescent) state every live
signal's subscriber set contains every effect whose most recent run
read (tracked) that signal: entries can be stale, but never missing. -/
theorem C1_amended_no_missing_entries (f : Nat) (ops : List Op)
    (g' : ReactiveGraph) (h : runOps f ReactiveGraph.empty ops = (g', none))
    (hre : g'.reentered = false) (s e : Nat) (hl : liveSig g' s = true)
    (hm : s ∈ lastReadsOf g' e) : e ∈ subsOf g' s := by
  have hinv := runOps_inv f ops inv_empty h hre
  rcases hinv.lastSubs e s hm hl with h1 | h1
  · exact h1
  · exact absurd h1 (fun hk => hk)

/-- Witness for the amended C1 at a concrete reachable state: at `gE8`
effect 0's most recent run read signal 1 (`first`), and the amended
theorem places it in signal 1's subscriber set. -/
theorem C1_amended_witness :
    runOps 24 ReactiveGraph.empty
      [Op.newSignal 0, Op.newSignal 10, Op.newSignal 0, Op.newEffect effBody,
       Op.write 1 20, Op.write 2 1, Op.write 0 1, Op.write 0 0] = (gE8, none) ∧
    gE8.reentered = false ∧
    liveSig gE8 1 = true ∧
    1 ∈ lastReadsOf gE8 0 ∧
    0 ∈ subsOf gE8 1 :=
  ⟨effReach8, by decide, by decide, by decide,
   C1_amended_no_missing_entries 24
     [Op.newSignal 0, Op.newSignal 10, Op.newSignal 0, Op.newEffect effBody,
      Op.write 1 20, Op.write 2 1, Op.write 0 1, Op.write 0 0]
     gE8 effReach8 (by decide) 1 0 (by decide) (by decide)⟩
